import Mathlib

/-!
Verification development for the cargo-graph repository.

The graph data model follows `src/graph/node_type.rs` and
`src/graph/flow_graph.rs`.  The graph container in the source is a
`petgraph::graph::DiGraph<NodeType, String>`; we embed it as a list of node
weights (the index of a node is its position) together with a list of labelled
edges.  petgraph stores edges in an arena whose internal order is
insertion order except after removals, where the library swap-removes; all
properties stated below are insensitive to the order of the edge list (they
are about membership, counts and multisets), so the embedding keeps removals
as order-preserving filters.  `remove_node` is modelled exactly as documented
by petgraph: the removed node's incident edges disappear and the node with the
largest index is relocated into the removed slot (edge endpoints are renamed
accordingly).

Note on `NodeType`: `src/graph/node_type.rs` declares
`Start(String, bool)`, `End(String, bool)`, `BasicBlock(String)`,
`Condition(String)` and `Loop(LoopKind)`.  The analyzer pass
(`src/passes/analyzer.rs`) constructs `Loop` with plain rendered strings and
`Start`/`End` from the function name alone, so the embedding gives `Loop` a
string payload and the analyzer model fills the test flag with `false`.
-/

namespace CargoGraph

inductive NodeType : Type where
  | Start : String → Bool → NodeType
  | End : String → Bool → NodeType
  | BasicBlock : String → NodeType
  | Condition : String → NodeType
  | Loop : String → NodeType
deriving DecidableEq, Repr

structure Edge : Type where
  src : Nat
  tgt : Nat
  lab : String
deriving DecidableEq, Repr

/-- The `FlowGraph` of `src/graph/flow_graph.rs`: a petgraph `DiGraph` plus a
`GraphConfig { include_tests }`.  (The `node_map` field is dead code in the
source and is omitted.) -/
structure FlowGraph : Type where
  nodes : List NodeType
  edges : List Edge
  includeTests : Bool := false
deriving DecidableEq, Repr

/-- `graph.node_weight(i)`. -/
def nodeWeight (g : FlowGraph) (i : Nat) : Option NodeType :=
  g.nodes[i]?

/-- `graph.add_node(w)`, returning the graph and the fresh index. -/
def addNode (g : FlowGraph) (w : NodeType) : FlowGraph × Nat :=
  ({ g with nodes := g.nodes ++ [w] }, g.nodes.length)

/-- `graph.add_edge(s, t, l)`. -/
def addEdge (g : FlowGraph) (s t : Nat) (l : String) : FlowGraph :=
  { g with edges := g.edges ++ [⟨s, t, l⟩] }

/-- `graph.edges_directed(i, Direction::Incoming)`. -/
def incomingEdges (g : FlowGraph) (i : Nat) : List Edge :=
  g.edges.filter (fun e => e.tgt = i)

/-- `graph.edges_directed(i, Direction::Outgoing)`. -/
def outgoingEdges (g : FlowGraph) (i : Nat) : List Edge :=
  g.edges.filter (fun e => e.src = i)

def inDegree (g : FlowGraph) (i : Nat) : Nat :=
  (incomingEdges g i).length

def outDegree (g : FlowGraph) (i : Nat) : Nat :=
  (outgoingEdges g i).length

def renameIdx (old new i : Nat) : Nat :=
  if i = old then new else i

/-- petgraph `Graph::remove_node(i)`: a no-op when `i` is not a valid index;
otherwise all edges incident to `i` are removed and the node at the largest
index is relocated into slot `i` (edge endpoints referring to the old largest
index are renamed to `i`). -/
def removeNode (g : FlowGraph) (i : Nat) : FlowGraph :=
  if i < g.nodes.length then
    { g with
      nodes :=
        if i = g.nodes.length - 1 then g.nodes.take (g.nodes.length - 1)
        else (g.nodes.take (g.nodes.length - 1)).set i
          (g.nodes.getD (g.nodes.length - 1) (NodeType.BasicBlock "")),
      edges :=
        (g.edges.filter (fun e => e.src ≠ i ∧ e.tgt ≠ i)).map
          (fun e => ⟨renameIdx (g.nodes.length - 1) i e.src,
                     renameIdx (g.nodes.length - 1) i e.tgt, e.lab⟩) }
  else g

/-- `graph.node_weight_mut(i)` followed by assignment (no-op on an invalid
index, matching the `if let Some(..)` in the source). -/
def setNodeWeight (g : FlowGraph) (i : Nat) (w : NodeType) : FlowGraph :=
  if i < g.nodes.length then { g with nodes := g.nodes.set i w } else g

/-- `FlowGraph::get_single_successor` (flow_graph.rs:192): `Some(t)` iff the
node has exactly one outgoing edge.  (petgraph's neighbor iterator yields one
entry per edge, so parallel edges also give `None`.) -/
def getSingleSuccessor (g : FlowGraph) (i : Nat) : Option Nat :=
  match outgoingEdges g i with
  | [e] => some e.tgt
  | _ => none

/-- `FlowGraph::is_valid_neighbor` (flow_graph.rs:181). -/
def isValidNeighbor (g : FlowGraph) (i : Nat) : Bool :=
  match nodeWeight g i with
  | some (NodeType.Start _ _) => false
  | some (NodeType.End _ _) => false
  | some _ => true
  | none => false

/-- `FlowGraph::is_mergeable_block` (flow_graph.rs:159). -/
def isMergeableBlock (g : FlowGraph) (i : Nat) : Bool :=
  match nodeWeight g i with
  | some (NodeType.BasicBlock _) =>
    if inDegree g i ≠ 1 ∨ outDegree g i ≠ 1 then false
    else
      ((incomingEdges g i).all (fun e => isValidNeighbor g e.src)) &&
      ((outgoingEdges g i).all (fun e => isValidNeighbor g e.tgt))
  | _ => false

/-- The consecutive-pair connectivity loop of `validate_merge_sequence`. -/
def validatePairs (g : FlowGraph) : List Nat → Bool
  | a :: b :: rest =>
    ((outgoingEdges g a).any (fun e => e.tgt = b)) && validatePairs g (b :: rest)
  | _ => true

/-- `FlowGraph::validate_merge_sequence` (flow_graph.rs:107): every member
exists and is a `BasicBlock`, and every consecutive pair is joined by an edge. -/
def validateMergeSequence (g : FlowGraph) (seq : List Nat) : Bool :=
  (seq.all (fun i =>
    (nodeWeight g i).isSome &&
    (match nodeWeight g i with
     | some (NodeType.BasicBlock _) => true
     | _ => false))) &&
  validatePairs g seq

/-- The successor-following loop of `collect_mergeable_sequence`
(flow_graph.rs:146).  The source loop has no revisit guard, so on a cycle of
mutually mergeable blocks it would not terminate; the model bounds the walk by
the node count, which never truncates a chain the source loop completes
(a completed chain lists distinct nodes, hence at most `nodes.length` of them). -/
def collectAux (g : FlowGraph) (merged fstarts : List Nat) : Nat → Nat → List Nat
  | 0, _ => []
  | fuel + 1, current =>
    match getSingleSuccessor g current with
    | none => []
    | some next =>
      if next ∈ merged ∨ next ∈ fstarts ∨ ¬ isMergeableBlock g next then []
      else next :: collectAux g merged fstarts fuel next

/-- `FlowGraph::collect_mergeable_sequence` (flow_graph.rs:135). -/
def collectMergeableSequence (g : FlowGraph) (start : Nat) (merged fstarts : List Nat) :
    List Nat :=
  start :: collectAux g merged fstarts g.nodes.length start

/-- The content-concatenation loop of `merge_sequence` (flow_graph.rs:230):
non-`BasicBlock` members contribute nothing; a line break separates a
contribution from a non-empty accumulator. -/
def mergedContentOf (g : FlowGraph) (seq : List Nat) : String :=
  seq.foldl (fun acc i =>
    match nodeWeight g i with
    | some (NodeType.BasicBlock c) =>
      if acc = "" then acc ++ c else acc ++ "\n" ++ c
    | _ => acc) ""

/-- `FlowGraph::merge_sequence` (flow_graph.rs:202): collect the incoming
edges of all non-first members and the outgoing edges of all non-last members,
store the concatenated content on the first node, remove the other members,
then re-add each collected edge redirected to/from the first node when its
far endpoint differs from the first/last member and still names a node. -/
def mergeSequence (g : FlowGraph) (seq : List Nat) : FlowGraph :=
  match seq with
  | [] => g
  | first :: tail =>
    let lastN := ((first :: tail).getLast?).getD first
    let inEdges := tail.flatMap (fun i => incomingEdges g i)
    let outEdges := ((first :: tail).dropLast).flatMap (fun i => outgoingEdges g i)
    let g1 := setNodeWeight g first (NodeType.BasicBlock (mergedContentOf g seq))
    let g2 := tail.foldl (fun h i => removeNode h i) g1
    let g3 := inEdges.foldl (fun h e =>
      if e.src ≠ first ∧ (nodeWeight h e.src).isSome then addEdge h e.src first e.lab
      else h) g2
    outEdges.foldl (fun h e =>
      if e.tgt ≠ lastN ∧ (nodeWeight h e.tgt).isSome then addEdge h first e.tgt e.lab
      else h) g3

/-- The function-start collection at the top of `merge_basic_blocks`
(flow_graph.rs:74). -/
def functionStarts (g : FlowGraph) : List Nat :=
  (List.range g.nodes.length).filter (fun i =>
    match nodeWeight g i with
    | some (NodeType.Start _ _) => true
    | _ => false)

/-- The initial work queue of `merge_basic_blocks` (flow_graph.rs:81); the
`merged` set is empty at this point, so only the function-start and
mergeability tests filter. -/
def initialQueue (g : FlowGraph) (fstarts : List Nat) : List Nat :=
  (List.range g.nodes.length).filter (fun i => i ∉ fstarts ∧ isMergeableBlock g i)

/-- The `while let Some(start_node) = to_merge.pop_front()` loop of
`merge_basic_blocks` (flow_graph.rs:89).  The queue is only consumed, never
extended, so the loop is a traversal of the initial queue. -/
def mergeLoop (fstarts : List Nat) : List Nat → FlowGraph → List Nat → FlowGraph
  | [], g, _ => g
  | start :: rest, g, merged =>
    if start ∈ merged then mergeLoop fstarts rest g merged
    else
      let seq := collectMergeableSequence g start merged fstarts
      if 1 < seq.length then
        if validateMergeSequence g seq then
          mergeLoop fstarts rest (mergeSequence g seq) (merged ++ seq)
        else mergeLoop fstarts rest g merged
      else mergeLoop fstarts rest g merged

/-- `FlowGraph::merge_basic_blocks` (flow_graph.rs:68). -/
def mergeBasicBlocks (g : FlowGraph) : FlowGraph :=
  let fstarts := functionStarts g
  mergeLoop fstarts (initialQueue g fstarts) g []

/-! ### Visibility filter (`get_function_nodes`, `get_visible_nodes`) -/

/-- The targets pushed by `for edge in self.graph.edges(node_id)` in
`get_function_nodes` (flow_graph.rs:270): the outgoing edge targets. -/
def successorsOf (g : FlowGraph) (i : Nat) : List Nat :=
  (outgoingEdges g i).map (fun e => e.tgt)

/-- The stack loop of `get_function_nodes` (flow_graph.rs:268): pop a node;
if it is newly inserted into the visited set, push all its successors.  The
fuel argument only bounds the iteration count; the source loop performs at
most `1 + edges` iterations (each pushed entry beyond the initial one is an
outgoing edge of a node at its unique first visit), so the fuel chosen in
`getFunctionNodes` is never exhausted. -/
def dfsLoop (g : FlowGraph) : Nat → List Nat → List Nat → List Nat
  | 0, _, visited => visited
  | _ + 1, [], visited => visited
  | fuel + 1, x :: rest, visited =>
    if x ∈ visited then dfsLoop g fuel rest visited
    else dfsLoop g fuel (successorsOf g x ++ rest) (x :: visited)

/-- `FlowGraph::get_function_nodes` (flow_graph.rs:264). -/
def getFunctionNodes (g : FlowGraph) (start : Nat) : List Nat :=
  dfsLoop g (g.edges.length + 2) [start] []

/-- One step of the accumulation of `test_function_nodes` in
`get_visible_nodes` (flow_graph.rs:290): a `Start(_, true)` node contributes
its forward-reachable set. -/
def testAccStep (g : FlowGraph) (acc : List Nat) (i : Nat) : List Nat :=
  match nodeWeight g i with
  | some (NodeType.Start _ true) => acc ++ getFunctionNodes g i
  | _ => acc

/-- The accumulation of `test_function_nodes` in `get_visible_nodes`
(flow_graph.rs:290): the forward-reachable sets of all `Start(_, true)`
nodes. -/
def testFunctionNodes (g : FlowGraph) : List Nat :=
  (List.range g.nodes.length).foldl (testAccStep g) []

/-- `FlowGraph::get_visible_nodes` (flow_graph.rs:286). -/
def getVisibleNodes (g : FlowGraph) : List Nat :=
  (List.range g.nodes.length).filter (fun i =>
    g.includeTests || i ∉ testFunctionNodes g)

/-- The filter inside `FlowGraph::edges` (flow_graph.rs:313): an edge is kept
iff both endpoints are visible. -/
def visibleEdges (g : FlowGraph) : List Edge :=
  g.edges.filter (fun e => e.src ∈ getVisibleNodes g ∧ e.tgt ∈ getVisibleNodes g)

/-- One directed edge step, used to state reachability claims. -/
def EdgeRel (g : FlowGraph) (x y : Nat) : Prop :=
  ∃ lab, Edge.mk x y lab ∈ g.edges

/-! ### Lemmas: the DFS of `get_function_nodes` finds every reachable node -/

theorem phi_split (l : List Edge) (x : Nat) (visited : List Nat) (hx : x ∉ visited) :
    (l.filter (fun e => e.src ∉ (x :: visited))).length
      + (l.filter (fun e => e.src = x)).length
    = (l.filter (fun e => e.src ∉ visited)).length := by
  induction l with
  | nil => simp
  | cons e es ih =>
    simp only [List.filter_cons]
    by_cases h1 : e.src = x
    · have c1 : (decide (e.src ∉ x :: visited)) = false := by simp [h1]
      have c2 : (decide (e.src = x)) = true := by simp [h1]
      have c3 : (decide (e.src ∉ visited)) = true := by simp [h1, hx]
      rw [c1, c2, c3]
      simp only [Bool.false_eq_true, if_false, if_true, List.length_cons]
      omega
    · by_cases h2 : e.src ∈ visited
      · have c1 : (decide (e.src ∉ x :: visited)) = false := by simp [h2]
        have c2 : (decide (e.src = x)) = false := by simp [h1]
        have c3 : (decide (e.src ∉ visited)) = false := by simp [h2]
        rw [c1, c2, c3]
        simp only [Bool.false_eq_true, if_false, if_true, List.length_cons]
        omega
      · have c1 : (decide (e.src ∉ x :: visited)) = true := by simp [h1, h2]
        have c2 : (decide (e.src = x)) = false := by simp [h1]
        have c3 : (decide (e.src ∉ visited)) = true := by simp [h2]
        rw [c1, c2, c3]
        simp only [Bool.false_eq_true, if_false, if_true, List.length_cons]
        omega

theorem length_successorsOf (g : FlowGraph) (x : Nat) :
    (successorsOf g x).length = (g.edges.filter (fun e => e.src = x)).length := by
  simp [successorsOf, outgoingEdges]

/-- Invariant-based specification of the DFS loop: with enough fuel, the
result contains the visited set and the stack, and is closed under edge
successors. -/
theorem dfsLoop_spec (g : FlowGraph) :
    ∀ fuel stack visited,
      stack.length + (g.edges.filter (fun e => e.src ∉ visited)).length < fuel →
      (∀ x ∈ visited, ∀ y ∈ successorsOf g x, y ∈ visited ∨ y ∈ stack) →
      (∀ x ∈ visited, x ∈ dfsLoop g fuel stack visited) ∧
      (∀ x ∈ stack, x ∈ dfsLoop g fuel stack visited) ∧
      (∀ x ∈ dfsLoop g fuel stack visited, ∀ y ∈ successorsOf g x,
        y ∈ dfsLoop g fuel stack visited) := by
  intro fuel
  induction fuel with
  | zero => intro stack visited hphi _; omega
  | succ n ih =>
    intro stack visited hphi hinv
    match stack with
    | [] =>
      refine ⟨fun x hx => hx, by simp, fun x hx y hy => ?_⟩
      rcases hinv x hx y hy with h | h
      · exact h
      · simp at h
    | x :: rest =>
      by_cases hx : x ∈ visited
      · have heq : dfsLoop g (n + 1) (x :: rest) visited = dfsLoop g n rest visited := by
          simp [dfsLoop, hx]
        have hphi2 : rest.length + (g.edges.filter (fun e => e.src ∉ visited)).length < n := by
          simp only [List.length_cons] at hphi; omega
        have hinv2 : ∀ v ∈ visited, ∀ y ∈ successorsOf g v, y ∈ visited ∨ y ∈ rest := by
          intro v hv y hy
          rcases hinv v hv y hy with h | h
          · exact Or.inl h
          · rcases List.mem_cons.mp h with h | h
            · exact Or.inl (h ▸ hx)
            · exact Or.inr h
        obtain ⟨r1, r2, r3⟩ := ih rest visited hphi2 hinv2
        rw [heq]
        exact ⟨r1, fun z hz => by
          rcases List.mem_cons.mp hz with h | h
          · exact h ▸ r1 x hx
          · exact r2 z h, r3⟩
      · have heq : dfsLoop g (n + 1) (x :: rest) visited
            = dfsLoop g n (successorsOf g x ++ rest) (x :: visited) := by
          simp [dfsLoop, hx]
        have hsplit := phi_split g.edges x visited hx
        have hlen := length_successorsOf g x
        have hphi2 : (successorsOf g x ++ rest).length
            + (g.edges.filter (fun e => e.src ∉ (x :: visited))).length < n := by
          simp only [List.length_append]
          simp only [List.length_cons] at hphi
          omega
        have hinv2 : ∀ v ∈ x :: visited, ∀ y ∈ successorsOf g v,
            y ∈ x :: visited ∨ y ∈ successorsOf g x ++ rest := by
          intro v hv y hy
          rcases List.mem_cons.mp hv with h | h
          · subst h
            exact Or.inr (List.mem_append_left _ hy)
          · rcases hinv v h y hy with h2 | h2
            · exact Or.inl (List.mem_cons_of_mem _ h2)
            · rcases List.mem_cons.mp h2 with h3 | h3
              · exact Or.inl (h3 ▸ List.mem_cons_self _ _)
              · exact Or.inr (List.mem_append_right _ h3)
        obtain ⟨r1, r2, r3⟩ := ih (successorsOf g x ++ rest) (x :: visited) hphi2 hinv2
        rw [heq]
        refine ⟨fun z hz => r1 z (List.mem_cons_of_mem _ hz), fun z hz => ?_, r3⟩
        rcases List.mem_cons.mp hz with h | h
        · exact h ▸ r1 x (List.mem_cons_self _ _)
        · exact r2 z (List.mem_append_right _ h)

/-- Every node reachable along directed edges from `start` is found by
`get_function_nodes`. -/
theorem reach_mem_getFunctionNodes (g : FlowGraph) (start b : Nat)
    (h : Relation.ReflTransGen (EdgeRel g) start b) :
    b ∈ getFunctionNodes g start := by
  have hphi : ([start] : List Nat).length
      + (g.edges.filter (fun e => e.src ∉ ([] : List Nat))).length
      < g.edges.length + 2 := by
    simp
    omega
  have hinv : ∀ x ∈ ([] : List Nat), ∀ y ∈ successorsOf g x,
      y ∈ ([] : List Nat) ∨ y ∈ [start] := by simp
  obtain ⟨_, r2, r3⟩ := dfsLoop_spec g (g.edges.length + 2) [start] [] hphi hinv
  induction h with
  | refl => exact r2 start (List.mem_cons_self _ _)
  | tail _ hstep ih =>
    rcases hstep with ⟨lab, hmem⟩
    refine r3 _ ih _ ?_
    simp only [successorsOf, outgoingEdges, List.mem_map]
    exact ⟨⟨_, _, lab⟩, List.mem_filter.mpr ⟨hmem, by simp⟩, rfl⟩

/-! ### Lemmas: membership in `test_function_nodes` -/

theorem mem_foldl_testAccStep (g : FlowGraph) :
    ∀ (l : List Nat) (acc : List Nat) (x : Nat), x ∈ acc → x ∈ l.foldl (testAccStep g) acc := by
  intro l
  induction l with
  | nil => intro acc x hx; exact hx
  | cons i rest ih =>
    intro acc x hx
    refine ih (testAccStep g acc i) x ?_
    unfold testAccStep
    match nodeWeight g i with
    | some (NodeType.Start nm true) => exact List.mem_append_left _ hx
    | some (NodeType.Start nm false) => exact hx
    | some (NodeType.End nm b) => exact hx
    | some (NodeType.BasicBlock c) => exact hx
    | some (NodeType.Condition c) => exact hx
    | some (NodeType.Loop c) => exact hx
    | none => exact hx

theorem mem_foldl_testAccStep_of_mem (g : FlowGraph) :
    ∀ (l acc : List Nat) (s x : Nat) (nm : String), s ∈ l →
      nodeWeight g s = some (NodeType.Start nm true) →
      x ∈ getFunctionNodes g s →
      x ∈ l.foldl (testAccStep g) acc := by
  intro l
  induction l with
  | nil => intro acc s x nm hmem; simp at hmem
  | cons i rest ih =>
    intro acc s x nm hmem hw hx
    rcases List.mem_cons.mp hmem with h | h
    · subst h
      refine mem_foldl_testAccStep g rest _ x ?_
      unfold testAccStep
      rw [hw]
      exact List.mem_append_right _ hx
    · exact ih _ s x nm h hw hx

theorem mem_testFunctionNodes (g : FlowGraph) (s x : Nat) (nm : String)
    (hs : s < g.nodes.length)
    (hw : nodeWeight g s = some (NodeType.Start nm true))
    (hx : x ∈ getFunctionNodes g s) :
    x ∈ testFunctionNodes g :=
  mem_foldl_testAccStep_of_mem g (List.range g.nodes.length) [] s x nm
    (List.mem_range.mpr hs) hw hx

/-- C4.  With `include_tests = false` no node reachable along directed edges
from a test `Start` node is in the visible node set; with
`include_tests = true` the visible node set is the full node set; and in both
cases an edge is visible iff both of its endpoints are visible. -/
theorem c4_visibility :
    (∀ (g : FlowGraph) (s b : Nat) (nm : String),
        g.includeTests = false →
        nodeWeight g s = some (NodeType.Start nm true) →
        Relation.ReflTransGen (EdgeRel g) s b →
        b ∉ getVisibleNodes g) ∧
    (∀ g : FlowGraph, g.includeTests = true →
        getVisibleNodes g = List.range g.nodes.length) ∧
    (∀ (g : FlowGraph) (e : Edge),
        e ∈ visibleEdges g ↔
          e ∈ g.edges ∧ e.src ∈ getVisibleNodes g ∧ e.tgt ∈ getVisibleNodes g) := by
  refine ⟨?_, ?_, ?_⟩
  · intro g s b nm hcfg hw hreach hvis
    have hs : s < g.nodes.length := by
      by_contra hge
      rw [nodeWeight, List.getElem?_eq_none (Nat.le_of_not_lt hge)] at hw
      exact Option.noConfusion hw
    have hb : b ∈ testFunctionNodes g :=
      mem_testFunctionNodes g s b nm hs hw (reach_mem_getFunctionNodes g s b hreach)
    have := (List.mem_filter.mp hvis).2
    rw [hcfg] at this
    simp at this
    exact this hb
  · intro g hcfg
    unfold getVisibleNodes
    rw [hcfg]
    simp
  · intro g e
    unfold visibleEdges
    rw [List.mem_filter]
    simp [and_assoc]

/-- Witness for C4 at a concrete graph: a test function with entry `0` and a
reachable block `1`; with `include_tests = false` node `1` is hidden, with
`include_tests = true` everything is visible, and edge visibility follows
endpoint visibility. -/
theorem c4_visibility_witness :
    (1 ∉ getVisibleNodes { nodes := [NodeType.Start "t" true, NodeType.BasicBlock "x"],
                           edges := [⟨0, 1, "next"⟩], includeTests := false }) ∧
    (getVisibleNodes { nodes := [NodeType.Start "t" true, NodeType.BasicBlock "x"],
                       edges := [⟨0, 1, "next"⟩], includeTests := true } = [0, 1]) ∧
    ((⟨0, 1, "next"⟩ : Edge) ∉
        visibleEdges { nodes := [NodeType.Start "t" true, NodeType.BasicBlock "x"],
                       edges := [⟨0, 1, "next"⟩], includeTests := false }) := by
  refine ⟨?_, ?_, ?_⟩
  · exact c4_visibility.1 _ 0 1 "t" rfl rfl
      (Relation.ReflTransGen.single ⟨"next", by decide⟩)
  · exact (c4_visibility.2.1 _ rfl).trans (by decide)
  · intro hmem
    have h2 := ((c4_visibility.2.2 _ _).mp hmem).2.1
    have h0 : (0 : Nat) ∉ getVisibleNodes
        { nodes := [NodeType.Start "t" true, NodeType.BasicBlock "x"],
          edges := [⟨0, 1, "next"⟩], includeTests := false } :=
      c4_visibility.1 _ 0 0 "t" rfl rfl Relation.ReflTransGen.refl
    exact h0 h2

/-! ### Lemmas: what `merge_sequence` does to node weights -/

theorem removeNode_length (h : FlowGraph) (i : Nat) :
    h.nodes.length - 1 ≤ (removeNode h i).nodes.length := by
  unfold removeNode
  by_cases hi : i < h.nodes.length
  · rw [if_pos hi]
    by_cases hl : i = h.nodes.length - 1
    · rw [if_pos hl]
      simp
    · rw [if_neg hl]
      simp
  · rw [if_neg hi]
    omega

theorem removeNode_nodeWeight (h : FlowGraph) (i first : Nat)
    (hne : i ≠ first) (hfirst : first + 2 ≤ h.nodes.length) :
    nodeWeight (removeNode h i) first = nodeWeight h first := by
  unfold removeNode nodeWeight
  by_cases hi : i < h.nodes.length
  · rw [if_pos hi]
    by_cases hl : i = h.nodes.length - 1
    · rw [if_pos hl]
      show (h.nodes.take (h.nodes.length - 1))[first]? = h.nodes[first]?
      rw [List.getElem?_take, if_pos (by omega)]
    · rw [if_neg hl]
      show ((h.nodes.take (h.nodes.length - 1)).set i _)[first]? = h.nodes[first]?
      rw [List.getElem?_set_ne hne, List.getElem?_take, if_pos (by omega)]
  · rw [if_neg hi]

theorem foldl_removeNode_nodeWeight :
    ∀ (tail : List Nat) (h : FlowGraph) (first : Nat),
      first ∉ tail → first + tail.length + 1 ≤ h.nodes.length →
      nodeWeight (tail.foldl (fun acc i => removeNode acc i) h) first = nodeWeight h first := by
  intro tail
  induction tail with
  | nil => intro h first _ _; rfl
  | cons i rest ih =>
    intro h first hnot hlen
    have hne : i ≠ first := by
      intro he
      exact hnot (he ▸ List.mem_cons_self i rest)
    have h2 : first + 2 ≤ h.nodes.length := by
      simp only [List.length_cons] at hlen
      omega
    rw [List.foldl_cons]
    have hlen2 : first + rest.length + 1 ≤ (removeNode h i).nodes.length := by
      have := removeNode_length h i
      simp only [List.length_cons] at hlen
      omega
    rw [ih (removeNode h i) first (fun hm => hnot (List.mem_cons_of_mem _ hm)) hlen2]
    exact removeNode_nodeWeight h i first hne h2

theorem foldl_inEdges_nodes (first : Nat) :
    ∀ (l : List Edge) (h : FlowGraph),
      (l.foldl (fun acc e =>
        if e.src ≠ first ∧ (nodeWeight acc e.src).isSome then addEdge acc e.src first e.lab
        else acc) h).nodes = h.nodes := by
  intro l
  induction l with
  | nil => intro h; rfl
  | cons e es ih =>
    intro h
    rw [List.foldl_cons, ih]
    split <;> rfl

theorem foldl_outEdges_nodes (first lastN : Nat) :
    ∀ (l : List Edge) (h : FlowGraph),
      (l.foldl (fun acc e =>
        if e.tgt ≠ lastN ∧ (nodeWeight acc e.tgt).isSome then addEdge acc first e.tgt e.lab
        else acc) h).nodes = h.nodes := by
  intro l
  induction l with
  | nil => intro h; rfl
  | cons e es ih =>
    intro h
    rw [List.foldl_cons, ih]
    split <;> rfl

theorem setNodeWeight_nodeWeight_self (g : FlowGraph) (i : Nat) (w : NodeType)
    (hi : i < g.nodes.length) :
    nodeWeight (setNodeWeight g i w) i = some w := by
  unfold setNodeWeight nodeWeight
  simp [hi]

theorem foldl_inEdges_nodeWeight (first j : Nat) (l : List Edge) (h : FlowGraph) :
    nodeWeight (l.foldl (fun acc e =>
        if e.src ≠ first ∧ (nodeWeight acc e.src).isSome then addEdge acc e.src first e.lab
        else acc) h) j = nodeWeight h j :=
  congrArg (fun ns : List NodeType => ns[j]?) (foldl_inEdges_nodes first l h)

theorem foldl_outEdges_nodeWeight (first lastN j : Nat) (l : List Edge) (h : FlowGraph) :
    nodeWeight (l.foldl (fun acc e =>
        if e.tgt ≠ lastN ∧ (nodeWeight acc e.tgt).isSome then addEdge acc first e.tgt e.lab
        else acc) h) j = nodeWeight h j :=
  congrArg (fun ns : List NodeType => ns[j]?) (foldl_outEdges_nodes first lastN l h)

/-! ### C1: idempotence of the basic-block merge pass -/

/-- A graph on which `merge_basic_blocks` is not idempotent.  The chain
`1 → 2` merges first; removing node `2` relocates node `7` (the block "c")
into index `2`, which the pass has already marked as consumed, so the chain
"c" → "d" survives the first run and is merged only by the second run. -/
def c1Graph : FlowGraph :=
  { nodes := [NodeType.Condition "x", NodeType.BasicBlock "a", NodeType.BasicBlock "b",
              NodeType.Condition "y", NodeType.Condition "p", NodeType.BasicBlock "d",
              NodeType.Condition "q", NodeType.BasicBlock "c"],
    edges := [⟨0, 1, "next"⟩, ⟨1, 2, "next"⟩, ⟨2, 3, "next"⟩,
              ⟨4, 7, "next"⟩, ⟨7, 5, "next"⟩, ⟨5, 6, "next"⟩] }

/-- C1.  `merge_basic_blocks` is not idempotent: on `c1Graph` the first run
leaves 7 nodes (the "c" → "d" chain unmerged, because node "c" was relocated
into a consumed index by a swap-removal), while the second run merges that
chain and leaves 6 nodes, so running the pass twice differs from running it
once. -/
theorem c1_merge_not_idempotent :
    (mergeBasicBlocks c1Graph).nodes.length = 7 ∧
    (mergeBasicBlocks (mergeBasicBlocks c1Graph)).nodes.length = 6 ∧
    mergeBasicBlocks (mergeBasicBlocks c1Graph) ≠ mergeBasicBlocks c1Graph := by
  refine ⟨by decide, by decide, by decide⟩

/-! ### C5: a failed validation skips the merge and leaves the graph unchanged -/

/-- C5.  When the connectivity/kind validation of a collected chain fails,
the merge loop skips that merge entirely: the graph and the consumed set are
exactly what they were, and processing continues with the rest of the queue. -/
theorem c5_validation_failure_skips (fstarts rest merged : List Nat)
    (g : FlowGraph) (start : Nat)
    (h1 : start ∉ merged)
    (h2 : 1 < (collectMergeableSequence g start merged fstarts).length)
    (h3 : validateMergeSequence g (collectMergeableSequence g start merged fstarts) = false) :
    mergeLoop fstarts (start :: rest) g merged = mergeLoop fstarts rest g merged := by
  simp [mergeLoop, h1, h2, h3]

/-- Witness for C5: the collected chain `[0, 1]` starts at a `Condition`
node, so validation fails and the merge loop leaves the graph untouched. -/
theorem c5_validation_failure_skips_witness :
    (0 ∉ ([] : List Nat)) ∧
    1 < (collectMergeableSequence
          { nodes := [NodeType.Condition "c", NodeType.BasicBlock "b", NodeType.Condition "d"],
            edges := [⟨0, 1, "x"⟩, ⟨1, 2, "y"⟩] } 0 [] []).length ∧
    validateMergeSequence
          { nodes := [NodeType.Condition "c", NodeType.BasicBlock "b", NodeType.Condition "d"],
            edges := [⟨0, 1, "x"⟩, ⟨1, 2, "y"⟩] }
          (collectMergeableSequence
            { nodes := [NodeType.Condition "c", NodeType.BasicBlock "b", NodeType.Condition "d"],
              edges := [⟨0, 1, "x"⟩, ⟨1, 2, "y"⟩] } 0 [] []) = false ∧
    mergeLoop [] [0]
          { nodes := [NodeType.Condition "c", NodeType.BasicBlock "b", NodeType.Condition "d"],
            edges := [⟨0, 1, "x"⟩, ⟨1, 2, "y"⟩] } []
      = { nodes := [NodeType.Condition "c", NodeType.BasicBlock "b", NodeType.Condition "d"],
          edges := [⟨0, 1, "x"⟩, ⟨1, 2, "y"⟩] } :=
  ⟨by decide, by decide, by decide,
    (c5_validation_failure_skips [] [] []
      { nodes := [NodeType.Condition "c", NodeType.BasicBlock "b", NodeType.Condition "d"],
        edges := [⟨0, 1, "x"⟩, ⟨1, 2, "y"⟩] } 0
      (by decide) (by decide) (by decide)).trans rfl⟩

/-! ### C2: rewiring on a committed chain -/

/-- The counterexample graph for C2: a committed two-block chain
`P → A → B → S` with an external predecessor `P` and an external successor
`S`. -/
def c2Graph : FlowGraph :=
  { nodes := [NodeType.Condition "p", NodeType.BasicBlock "a", NodeType.BasicBlock "b",
              NodeType.Condition "s"],
    edges := [⟨0, 1, "n1"⟩, ⟨1, 2, "n2"⟩, ⟨2, 3, "n3"⟩] }

/-- Counterexample to C2.  The chain `[1, 2]` is collected, validated and
committed, yet after the pass the merged node has out-degree 0: the last
member's outgoing edge to the external successor `S` was deleted together
with the removed node and never redirected, so the merged node does not stay
connected to the chain's external successor (which now sits at index 2 and
has no incoming edge). -/
theorem c2_counterexample :
    collectMergeableSequence c2Graph 1 [] [] = [1, 2] ∧
    validateMergeSequence c2Graph [1, 2] = true ∧
    mergeBasicBlocks c2Graph =
      { nodes := [NodeType.Condition "p", NodeType.BasicBlock "a\nb", NodeType.Condition "s"],
        edges := [⟨0, 1, "n1"⟩] } ∧
    outDegree (mergeBasicBlocks c2Graph) 1 = 0 ∧
    incomingEdges (mergeBasicBlocks c2Graph) 2 = [] := by
  refine ⟨by decide, by decide, by decide, by decide, by decide⟩

/-- C2 (amended).  For a two-node chain `[a, b]` whose collected edge lists
are exactly the chain-internal edge (which is what in/out-degree 1 gives a
committed chain), the rewiring loops of `merge_sequence` re-add nothing: the
source of the collected incoming edge is the first member and the target of
the collected outgoing edge is the last member, so both guards fail.  The
whole merge is the content update followed by the plain removal of `b`; in
particular every edge incident to `b` — including its outgoing edge to the
chain's external successor — is deleted, while the incoming edges of `a`
(from the external predecessor) survive. -/
theorem c2_two_chain_rewire (g : FlowGraph) (a b : Nat) (w w' : String)
    (hin : incomingEdges g b = [⟨a, b, w⟩])
    (hout : outgoingEdges g a = [⟨a, b, w'⟩]) :
    mergeSequence g [a, b]
      = removeNode (setNodeWeight g a
          (NodeType.BasicBlock (mergedContentOf g [a, b]))) b := by
  unfold mergeSequence
  simp [hin, hout]

/-- Witness for C2's amended theorem at the counterexample graph: the merge
of chain `[1, 2]` equals setting the merged content and removing node `2`,
which keeps the predecessor edge `0 → 1` and drops the successor edge. -/
theorem c2_two_chain_rewire_witness :
    mergeSequence c2Graph [1, 2]
      = { nodes := [NodeType.Condition "p", NodeType.BasicBlock "a\nb", NodeType.Condition "s"],
          edges := [⟨0, 1, "n1"⟩] } :=
  (c2_two_chain_rewire c2Graph 1 2 "n2" "n2" (by decide) (by decide)).trans (by decide)

/-! ### C3: merged content and the identity of the chain's first node -/

/-- The counterexample graph for C3: the chain's first node "x" was created
after its successor "y" (node 3 versus node 1), which a structured builder
can produce (e.g. a merge point is created before the branch that flows into
it).  petgraph indices are positions, so creation order need not follow edge
order. -/
def c3Graph : FlowGraph :=
  { nodes := [NodeType.Condition "p", NodeType.BasicBlock "y", NodeType.Condition "s",
              NodeType.BasicBlock "x"],
    edges := [⟨0, 3, "e1"⟩, ⟨3, 1, "e2"⟩, ⟨1, 2, "e3"⟩] }

/-- Counterexample to C3.  The pass collects, validates and commits the
chain `[3, 1]`, but the chain's first node (index 3) does not keep its
identity: removing node `1` relocates the highest index into slot `1`, so
after the pass index `3` names no node at all and the merged text sits at
index `1`. -/
theorem c3_counterexample :
    collectMergeableSequence c3Graph 3 [] [] = [3, 1] ∧
    validateMergeSequence c3Graph [3, 1] = true ∧
    nodeWeight (mergeBasicBlocks c3Graph) 3 = none ∧
    mergeBasicBlocks c3Graph =
      { nodes := [NodeType.Condition "p", NodeType.BasicBlock "x\ny", NodeType.Condition "s"],
        edges := [⟨0, 1, "e1"⟩] } := by
  refine ⟨by decide, by decide, by decide, by decide⟩

/-- The A("x") → B("y") → C("z") example of C3, with an external predecessor
and successor that are not entry/exit nodes. -/
def c3ChainGraph : FlowGraph :=
  { nodes := [NodeType.Condition "p", NodeType.BasicBlock "x", NodeType.BasicBlock "y",
              NodeType.BasicBlock "z", NodeType.Condition "s"],
    edges := [⟨0, 1, "next"⟩, ⟨1, 2, "next"⟩, ⟨2, 3, "next"⟩, ⟨3, 4, "next"⟩] }

/-- C3 (amended).  `merge_sequence` stores on the chain's first node the
concatenation of the members' texts in chain order separated by a line break,
and the first node keeps its identity provided its index stays below the
shrinking node count while the other members are removed (for instance when
`first + length ≤ nodes.length`); in particular the A("x") → B("y") → C("z")
example merges into the single node `"x\ny\nz"` at A's index. -/
theorem c3_merge_content :
    (∀ (g : FlowGraph) (first : Nat) (tail : List Nat),
      first ∉ tail →
      first + (first :: tail).length ≤ g.nodes.length →
      nodeWeight (mergeSequence g (first :: tail)) first
        = some (NodeType.BasicBlock (mergedContentOf g (first :: tail)))) ∧
    (mergeBasicBlocks c3ChainGraph).nodes
      = [NodeType.Condition "p", NodeType.BasicBlock "x\ny\nz", NodeType.Condition "s"] := by
  constructor
  · intro g first tail hnot hlen
    simp only [List.length_cons] at hlen
    have hfirst : first < g.nodes.length := by omega
    have hset : (setNodeWeight g first
        (NodeType.BasicBlock (mergedContentOf g (first :: tail)))).nodes.length
        = g.nodes.length := by
      unfold setNodeWeight
      rw [if_pos hfirst]
      simp
    simp only [mergeSequence]
    rw [foldl_outEdges_nodeWeight, foldl_inEdges_nodeWeight]
    rw [foldl_removeNode_nodeWeight tail
      (setNodeWeight g first (NodeType.BasicBlock (mergedContentOf g (first :: tail))))
      first hnot (by omega)]
    exact setNodeWeight_nodeWeight_self g first
      (NodeType.BasicBlock (mergedContentOf g (first :: tail))) hfirst
  · decide

/-- Witness for C3's amended theorem: at the A → B → C example the general
statement yields the merged text `"x\ny\nz"` on the chain's first node. -/
theorem c3_merge_content_witness :
    nodeWeight (mergeSequence c3ChainGraph [1, 2, 3]) 1
      = some (NodeType.BasicBlock "x\ny\nz") :=
  (c3_merge_content.1 c3ChainGraph 1 [2, 3] (by decide) (by decide)).trans (by decide)

/-! ### The statement tree consumed by the builders

The `syn` AST subset handled by `ControlFlowAnalyzerPass::analyze_block`
(src/passes/analyzer.rs) and `ControlFlowVisitor::visit_block` (src/lib.rs).
Statement sequences and match-arm lists are modelled as their own cons-lists
so that all recursion is plainly mutual-structural.  The string payloads
stand for the `quote!(..)` renderings the source computes.  An `if`'s else
branch in `syn` is `Option<(Else, Box<Expr>)>` whose expression is a block, a
nested `if`, or — only in programmatically built trees, never in parsed
source — something else; `ElseBr.otherE` models that last case, on which the
source panics (`unreachable!`), and `ElseBr.none` the absent branch.  A
for-loop statement also carries its literal text, because the visitor in
`lib.rs` has no `ForLoop` arm and degrades it to an opaque block.  A match
arm's body is either a block or any other expression rendered to text
(analyzer.rs:169). -/

mutual
inductive Stm : Type where
  | sIf : IfE → Stm
  | sWhile : String → Blk → Stm
  | sLoop : Blk → Stm
  | sFor : String → String → Blk → String → Stm
  | sMatch : String → Arms → Stm
  | sOpaque : String → Stm
inductive IfE : Type where
  | mk : String → Blk → ElseBr → IfE
inductive ElseBr : Type where
  | none : ElseBr
  | blockE : Blk → ElseBr
  | elseIfE : IfE → ElseBr
  | otherE : String → ElseBr
inductive Blk : Type where
  | nil : Blk
  | cons : Stm → Blk → Blk
inductive Arms : Type where
  | nil : Arms
  | cons : Arm → Arms → Arms
inductive Arm : Type where
  | armBlock : String → Blk → Arm
  | armExpr : String → String → Arm
end

/-! ### `ControlFlowAnalyzerPass` (src/passes/analyzer.rs)

The builder state (`graph`, `current_node`) is threaded explicitly; each
function takes the current predecessor and returns the updated graph and the
new predecessor.  The only failure is the `unreachable!` panic on a malformed
else branch, modelled as `none` and propagated. -/

mutual
/-- `analyze_block` (analyzer.rs:39): fold the statements, threading the
last node. -/
def analyzeBlock (g : FlowGraph) (last : Nat) : Blk → Option (FlowGraph × Nat)
  | .nil => some (g, last)
  | .cons s rest => do
    let (g1, l1) ← analyzeStmt g last s
    analyzeBlock g1 l1 rest
termination_by b => (sizeOf b, 0)

/-- One iteration of the statement loop in `analyze_block` (analyzer.rs:43):
dispatch on the statement kind; any other statement becomes an opaque
`BasicBlock` holding its literal text, with a "next" edge from the
predecessor. -/
def analyzeStmt (g : FlowGraph) (last : Nat) : Stm → Option (FlowGraph × Nat)
  | .sIf e => analyzeIf g last e
  | .sWhile c body => analyzeWhile g last c body
  | .sLoop body => analyzeLoop g last body
  | .sFor pat iter body _ => analyzeFor g last pat iter body
  | .sMatch scrut arms => analyzeMatch g last scrut arms
  | .sOpaque t =>
    let p := addNode g (NodeType.BasicBlock t)
    some (addEdge p.1 last p.2 "next", p.2)
termination_by s => (sizeOf s, 0)

/-- `analyze_if` (analyzer.rs:85). -/
def analyzeIf (g : FlowGraph) (parent : Nat) : IfE → Option (FlowGraph × Nat)
  | .mk cond thenB els => do
    let p1 := addNode g (NodeType.Condition cond)
    let g2 := addEdge p1.1 parent p1.2 "进入判断"
    let (g3, thenN) ← analyzeBlock g2 p1.2 thenB
    let g4 := addEdge g3 p1.2 thenN "是"
    let p5 := addNode g4 (NodeType.BasicBlock "分支合并点")
    let g6 ← analyzeElse p5.1 p1.2 p5.2 els
    some (addEdge g6 thenN p5.2 "完成分支", p5.2)
termination_by e => (sizeOf e, 1)

/-- The else-branch handling inside `analyze_if` (analyzer.rs:97): no else
edges condition → merge "否"; a block or a nested if is walked from the
condition node, then condition → else "否" and else → merge "完成分支" are
added; any other expression hits the source's `unreachable!`, modelled as
`none`. -/
def analyzeElse (g : FlowGraph) (condN mergeN : Nat) : ElseBr → Option FlowGraph
  | .none => some (addEdge g condN mergeN "否")
  | .blockE b => do
    let (h, elseN) ← analyzeBlock g condN b
    let h2 := addEdge h condN elseN "否"
    some (addEdge h2 elseN mergeN "完成分支")
  | .elseIfE e => do
    let (h, elseN) ← analyzeIf g condN e
    let h2 := addEdge h condN elseN "否"
    some (addEdge h2 elseN mergeN "完成分支")
  | .otherE _ => none
termination_by e => (sizeOf e, 1)

/-- `analyze_while` (analyzer.rs:113). -/
def analyzeWhile (g : FlowGraph) (parent : Nat) (cond : String) (body : Blk) :
    Option (FlowGraph × Nat) := do
  let p1 := addNode g (NodeType.BasicBlock "循环入口")
  let g2 := addEdge p1.1 parent p1.2 "进入循环"
  let p3 := addNode g2 (NodeType.Condition cond)
  let g4 := addEdge p3.1 p1.2 p3.2 "检查条件"
  let (g5, bodyN) ← analyzeBlock g4 p3.2 body
  let g6 := addEdge g5 p3.2 bodyN "是"
  let g7 := addEdge g6 bodyN p1.2 "继续循环"
  let p8 := addNode g7 (NodeType.BasicBlock "循环结束")
  some (addEdge p8.1 p3.2 p8.2 "否", p8.2)
termination_by (sizeOf body, 1)

/-- `analyze_loop` (analyzer.rs:137). -/
def analyzeLoop (g : FlowGraph) (parent : Nat) (body : Blk) :
    Option (FlowGraph × Nat) := do
  let p1 := addNode g (NodeType.Loop "无条件循环")
  let g2 := addEdge p1.1 parent p1.2 "进入循环"
  let (g3, bodyN) ← analyzeBlock g2 p1.2 body
  let g4 := addEdge g3 bodyN p1.2 "继续循环"
  let p5 := addNode g4 (NodeType.BasicBlock "循环结束")
  some (addEdge p5.1 p1.2 p5.2 "跳出循环", p5.2)
termination_by (sizeOf body, 1)

/-- `analyze_for` (analyzer.rs:185). -/
def analyzeFor (g : FlowGraph) (parent : Nat) (pat iter : String) (body : Blk) :
    Option (FlowGraph × Nat) := do
  let p1 := addNode g (NodeType.Loop ("for " ++ pat ++ " in " ++ iter))
  let g2 := addEdge p1.1 parent p1.2 "进入循环"
  let (g3, bodyN) ← analyzeBlock g2 p1.2 body
  let g4 := addEdge g3 bodyN p1.2 "继续循环"
  let p5 := addNode g4 (NodeType.BasicBlock "循环结束")
  some (addEdge p5.1 p1.2 p5.2 "退出循环", p5.2)
termination_by (sizeOf body, 1)

/-- `analyze_match` (analyzer.rs:155). -/
def analyzeMatch (g : FlowGraph) (parent : Nat) (scrut : String) (arms : Arms) :
    Option (FlowGraph × Nat) := do
  let p1 := addNode g (NodeType.Condition ("match " ++ scrut))
  let g2 := addEdge p1.1 parent p1.2 "next"
  let p3 := addNode g2 (NodeType.BasicBlock "after_match")
  let g4 ← analyzeArms p3.1 p1.2 p3.2 arms
  some (g4, p3.2)
termination_by (sizeOf arms, 2)

/-- The arm loop of `analyze_match` (analyzer.rs:163). -/
def analyzeArms (g : FlowGraph) (matchN mergeN : Nat) : Arms → Option FlowGraph
  | .nil => some g
  | .cons a rest => do
    let g1 ← analyzeArm g matchN mergeN a
    analyzeArms g1 matchN mergeN rest
termination_by a => (sizeOf a, 1)

/-- One arm of `analyze_match`: an arm node, a "case" edge, the arm body (a
block walked from the arm node, or a text node with a "next" edge), then a
"next" edge into the shared merge node. -/
def analyzeArm (g : FlowGraph) (matchN mergeN : Nat) : Arm → Option FlowGraph
  | .armBlock pat body => do
    let p1 := addNode g (NodeType.BasicBlock ("case: " ++ pat))
    let g2 := addEdge p1.1 matchN p1.2 "case"
    let (g3, bodyN) ← analyzeBlock g2 p1.2 body
    some (addEdge g3 bodyN mergeN "next")
  | .armExpr pat text => do
    let p1 := addNode g (NodeType.BasicBlock ("case: " ++ pat))
    let g2 := addEdge p1.1 matchN p1.2 "case"
    let p3 := addNode g2 (NodeType.BasicBlock text)
    let g4 := addEdge p3.1 p1.2 p3.2 "next"
    some (addEdge g4 p3.2 mergeN "next")
termination_by a => (sizeOf a, 1)
end

/-- `analyze_function` (analyzer.rs:23): one `Start` and one `End` node, the
body walked from `Start`, and a "return" edge from the body's terminal to
`End`.  (The source calls the `Start`/`End` constructors with the name only;
the embedding fills the test flag with `false`.) -/
def analyzeFunction (g : FlowGraph) (name : String) (body : Blk) : Option FlowGraph := do
  let p1 := addNode g (NodeType.Start name false)
  let p2 := addNode p1.1 (NodeType.End name false)
  let (g3, lastN) ← analyzeBlock p2.1 p1.2 body
  some (addEdge g3 lastN p2.2 "return")

/-! ### Well-formedness: the trees the external parser produces

`syn`'s parser only ever places a block or a nested `if` after `else`, so a
parsed (syntactically well-formed) tree contains no `ElseBr.otherE`. -/

mutual
def wfStm : Stm → Bool
  | .sIf e => wfIf e
  | .sWhile _ b => wfBlk b
  | .sLoop b => wfBlk b
  | .sFor _ _ b _ => wfBlk b
  | .sMatch _ arms => wfArms arms
  | .sOpaque _ => true
def wfIf : IfE → Bool
  | .mk _ t els => wfBlk t && wfElse els
def wfElse : ElseBr → Bool
  | .none => true
  | .blockE b => wfBlk b
  | .elseIfE e => wfIf e
  | .otherE _ => false
def wfBlk : Blk → Bool
  | .nil => true
  | .cons s rest => wfStm s && wfBlk rest
def wfArms : Arms → Bool
  | .nil => true
  | .cons a rest => wfArm a && wfArms rest
def wfArm : Arm → Bool
  | .armBlock _ b => wfBlk b
  | .armExpr _ _ => true
end

/-! ### `ControlFlowVisitor` (src/lib.rs)

The second builder implementation.  Its `visit_block` differs from
`analyze_block` in exactly one point: the statement dispatch has no
`Expr::ForLoop` arm, so a for-loop falls into the catch-all and degrades to
an opaque `BasicBlock` holding the statement's literal text.  The remaining
functions are line-for-line the same as the analyzer's (lib.rs:80-239); its
`NodeType` lacks the test flag, which the shared embedding fills with
`false` (the claim's "up to node-variant renaming"). -/

mutual
/-- `ControlFlowVisitor::visit_block` (lib.rs:80). -/
def visitBlock (g : FlowGraph) (last : Nat) : Blk → Option (FlowGraph × Nat)
  | .nil => some (g, last)
  | .cons s rest => do
    let (g1, l1) ← visitStmt g last s
    visitBlock g1 l1 rest
termination_by b => (sizeOf b, 0)

/-- The statement dispatch in `visit_block` (lib.rs:84): note the absent
for-loop case. -/
def visitStmt (g : FlowGraph) (last : Nat) : Stm → Option (FlowGraph × Nat)
  | .sIf e => visitIf g last e
  | .sWhile c body => visitWhile g last c body
  | .sLoop body => visitLoop g last body
  | .sFor _ _ _ text =>
    let p := addNode g (NodeType.BasicBlock text)
    some (addEdge p.1 last p.2 "next", p.2)
  | .sMatch scrut arms => visitMatch g last scrut arms
  | .sOpaque t =>
    let p := addNode g (NodeType.BasicBlock t)
    some (addEdge p.1 last p.2 "next", p.2)
termination_by s => (sizeOf s, 0)

/-- `ControlFlowVisitor::visit_if` (lib.rs:123). -/
def visitIf (g : FlowGraph) (parent : Nat) : IfE → Option (FlowGraph × Nat)
  | .mk cond thenB els => do
    let p1 := addNode g (NodeType.Condition cond)
    let g2 := addEdge p1.1 parent p1.2 "进入判断"
    let (g3, thenN) ← visitBlock g2 p1.2 thenB
    let g4 := addEdge g3 p1.2 thenN "是"
    let p5 := addNode g4 (NodeType.BasicBlock "分支合并点")
    let g6 ← visitElse p5.1 p1.2 p5.2 els
    some (addEdge g6 thenN p5.2 "完成分支", p5.2)
termination_by e => (sizeOf e, 1)

/-- The else handling inside `visit_if` (lib.rs:135). -/
def visitElse (g : FlowGraph) (condN mergeN : Nat) : ElseBr → Option FlowGraph
  | .none => some (addEdge g condN mergeN "否")
  | .blockE b => do
    let (h, elseN) ← visitBlock g condN b
    let h2 := addEdge h condN elseN "否"
    some (addEdge h2 elseN mergeN "完成分支")
  | .elseIfE e => do
    let (h, elseN) ← visitIf g condN e
    let h2 := addEdge h condN elseN "否"
    some (addEdge h2 elseN mergeN "完成分支")
  | .otherE _ => none
termination_by e => (sizeOf e, 1)

/-- `ControlFlowVisitor::visit_while` (lib.rs:151). -/
def visitWhile (g : FlowGraph) (parent : Nat) (cond : String) (body : Blk) :
    Option (FlowGraph × Nat) := do
  let p1 := addNode g (NodeType.BasicBlock "循环入口")
  let g2 := addEdge p1.1 parent p1.2 "进入循环"
  let p3 := addNode g2 (NodeType.Condition cond)
  let g4 := addEdge p3.1 p1.2 p3.2 "检查条件"
  let (g5, bodyN) ← visitBlock g4 p3.2 body
  let g6 := addEdge g5 p3.2 bodyN "是"
  let g7 := addEdge g6 bodyN p1.2 "继续循环"
  let p8 := addNode g7 (NodeType.BasicBlock "循环结束")
  some (addEdge p8.1 p3.2 p8.2 "否", p8.2)
termination_by (sizeOf body, 1)

/-- `ControlFlowVisitor::visit_loop` (lib.rs:175). -/
def visitLoop (g : FlowGraph) (parent : Nat) (body : Blk) :
    Option (FlowGraph × Nat) := do
  let p1 := addNode g (NodeType.Loop "无条件循环")
  let g2 := addEdge p1.1 parent p1.2 "进入循环"
  let (g3, bodyN) ← visitBlock g2 p1.2 body
  let g4 := addEdge g3 bodyN p1.2 "继续循环"
  let p5 := addNode g4 (NodeType.BasicBlock "循环结束")
  some (addEdge p5.1 p1.2 p5.2 "跳出循环", p5.2)
termination_by (sizeOf body, 1)

/-- `ControlFlowVisitor::visit_match` (lib.rs:193). -/
def visitMatch (g : FlowGraph) (parent : Nat) (scrut : String) (arms : Arms) :
    Option (FlowGraph × Nat) := do
  let p1 := addNode g (NodeType.Condition ("match " ++ scrut))
  let g2 := addEdge p1.1 parent p1.2 "next"
  let p3 := addNode g2 (NodeType.BasicBlock "after_match")
  let g4 ← visitArms p3.1 p1.2 p3.2 arms
  some (g4, p3.2)
termination_by (sizeOf arms, 2)

/-- The arm loop of `visit_match` (lib.rs:201). -/
def visitArms (g : FlowGraph) (matchN mergeN : Nat) : Arms → Option FlowGraph
  | .nil => some g
  | .cons a rest => do
    let g1 ← visitArm g matchN mergeN a
    visitArms g1 matchN mergeN rest
termination_by a => (sizeOf a, 1)

/-- One arm of `visit_match` (lib.rs:202). -/
def visitArm (g : FlowGraph) (matchN mergeN : Nat) : Arm → Option FlowGraph
  | .armBlock pat body => do
    let p1 := addNode g (NodeType.BasicBlock ("case: " ++ pat))
    let g2 := addEdge p1.1 matchN p1.2 "case"
    let (g3, bodyN) ← visitBlock g2 p1.2 body
    some (addEdge g3 bodyN mergeN "next")
  | .armExpr pat text => do
    let p1 := addNode g (NodeType.BasicBlock ("case: " ++ pat))
    let g2 := addEdge p1.1 matchN p1.2 "case"
    let p3 := addNode g2 (NodeType.BasicBlock text)
    let g4 := addEdge p3.1 p1.2 p3.2 "next"
    some (addEdge g4 p3.2 mergeN "next")
termination_by a => (sizeOf a, 1)
end

/-- `ControlFlowVisitor`'s `visit_item_fn` (lib.rs:225): same shape as
`analyze_function`. -/
def visitItemFn (g : FlowGraph) (name : String) (body : Blk) : Option FlowGraph := do
  let p1 := addNode g (NodeType.Start name false)
  let p2 := addNode p1.1 (NodeType.End name false)
  let (g3, lastN) ← visitBlock p2.1 p1.2 body
  some (addEdge g3 lastN p2.2 "return")

/-! ### Presence of for-loop statements (the one point where the two
builders differ) -/

mutual
def hasForStm : Stm → Bool
  | .sIf e => hasForIf e
  | .sWhile _ b => hasForBlk b
  | .sLoop b => hasForBlk b
  | .sFor _ _ _ _ => true
  | .sMatch _ arms => hasForArms arms
  | .sOpaque _ => false
def hasForIf : IfE → Bool
  | .mk _ t els => hasForBlk t || hasForElse els
def hasForElse : ElseBr → Bool
  | .none => false
  | .blockE b => hasForBlk b
  | .elseIfE e => hasForIf e
  | .otherE _ => false
def hasForBlk : Blk → Bool
  | .nil => false
  | .cons s rest => hasForStm s || hasForBlk rest
def hasForArms : Arms → Bool
  | .nil => false
  | .cons a rest => hasForArm a || hasForArms rest
def hasForArm : Arm → Bool
  | .armBlock _ b => hasForBlk b
  | .armExpr _ _ => false
end

/-! ### Lemmas: the analyzer is total on well-formed trees and only appends

`Ext g g'` records that `g'` is `g` with nodes and edges appended, none of
the appended nodes being a `Start` or `End`. -/

def countStart (l : List NodeType) : Nat :=
  l.countP (fun n => match n with | NodeType.Start _ _ => true | _ => false)

def countEnd (l : List NodeType) : Nat :=
  l.countP (fun n => match n with | NodeType.End _ _ => true | _ => false)

def Ext (g g' : FlowGraph) : Prop :=
  (∃ ns, g'.nodes = g.nodes ++ ns ∧ countStart ns = 0 ∧ countEnd ns = 0) ∧
  (∃ es, g'.edges = g.edges ++ es)

theorem Ext_refl (g : FlowGraph) : Ext g g :=
  ⟨⟨[], by simp, rfl, rfl⟩, ⟨[], by simp⟩⟩

theorem Ext_trans {g1 g2 g3 : FlowGraph} (h1 : Ext g1 g2) (h2 : Ext g2 g3) : Ext g1 g3 := by
  obtain ⟨⟨ns1, hn1, hs1, he1⟩, ⟨es1, hE1⟩⟩ := h1
  obtain ⟨⟨ns2, hn2, hs2, he2⟩, ⟨es2, hE2⟩⟩ := h2
  refine ⟨⟨ns1 ++ ns2, ?_, ?_, ?_⟩, ⟨es1 ++ es2, ?_⟩⟩
  · rw [hn2, hn1, List.append_assoc]
  · unfold countStart at hs1 hs2 ⊢
    rw [List.countP_append]
    omega
  · unfold countEnd at he1 he2 ⊢
    rw [List.countP_append]
    omega
  · rw [hE2, hE1, List.append_assoc]

theorem Ext_addNode (g : FlowGraph) (w : NodeType)
    (hs : countStart [w] = 0) (he : countEnd [w] = 0) : Ext g (addNode g w).1 :=
  ⟨⟨[w], rfl, hs, he⟩, ⟨[], by simp [addNode]⟩⟩

theorem Ext_addEdge (g : FlowGraph) (s t : Nat) (l : String) : Ext g (addEdge g s t l) :=
  ⟨⟨[], by simp [addEdge], rfl, rfl⟩, ⟨[⟨s, t, l⟩], rfl⟩⟩

theorem Ext_edge_mem {g g' : FlowGraph} (h : Ext g g') {e : Edge} (he : e ∈ g.edges) :
    e ∈ g'.edges := by
  obtain ⟨_, ⟨es, hE⟩⟩ := h
  rw [hE]
  exact List.mem_append_left _ he

theorem addEdge_mem (g : FlowGraph) (s t : Nat) (l : String) :
    Edge.mk s t l ∈ (addEdge g s t l).edges := by
  simp [addEdge]

mutual
theorem analyzeBlock_total (b : Blk) : ∀ (g : FlowGraph) (last : Nat), wfBlk b = true →
    ∃ g' l', analyzeBlock g last b = some (g', l') ∧ Ext g g' ∧
      (b = Blk.nil → g' = g ∧ l' = last) ∧
      (b ≠ Blk.nil → ∃ t lab, Edge.mk last t lab ∈ g'.edges) := by
  match b with
  | .nil =>
    intro g last _
    refine ⟨g, last, ?_, Ext_refl g, fun _ => ⟨rfl, rfl⟩, fun h => absurd rfl h⟩
    simp only [analyzeBlock]
  | .cons s rest =>
    intro g last hwf
    simp only [wfBlk, Bool.and_eq_true] at hwf
    obtain ⟨g1, l1, h1, hext1, t0, lab0, hmem0⟩ := analyzeStmt_total s g last hwf.1
    obtain ⟨g2, l2, h2, hext2, -, -⟩ := analyzeBlock_total rest g1 l1 hwf.2
    refine ⟨g2, l2, ?_, Ext_trans hext1 hext2, fun hh => Blk.noConfusion hh,
      fun _ => ⟨t0, lab0, Ext_edge_mem hext2 hmem0⟩⟩
    simp only [analyzeBlock]
    rw [h1]
    exact h2
termination_by (sizeOf b, 0)

theorem analyzeStmt_total (s : Stm) : ∀ (g : FlowGraph) (last : Nat), wfStm s = true →
    ∃ g' l', analyzeStmt g last s = some (g', l') ∧ Ext g g' ∧
      ∃ t lab, Edge.mk last t lab ∈ g'.edges := by
  match s with
  | .sIf e =>
    intro g last hwf
    simp only [wfStm] at hwf
    obtain ⟨g', m, h, hext, hedge⟩ := analyzeIf_total e g last hwf
    refine ⟨g', m, ?_, hext, hedge⟩
    simp only [analyzeStmt]
    exact h
  | .sWhile c body =>
    intro g last hwf
    simp only [wfStm] at hwf
    obtain ⟨g', m, h, hext, hedge⟩ := analyzeWhile_total body g last c hwf
    refine ⟨g', m, ?_, hext, hedge⟩
    simp only [analyzeStmt]
    exact h
  | .sLoop body =>
    intro g last hwf
    simp only [wfStm] at hwf
    obtain ⟨g', m, h, hext, hedge⟩ := analyzeLoop_total body g last hwf
    refine ⟨g', m, ?_, hext, hedge⟩
    simp only [analyzeStmt]
    exact h
  | .sFor pat iter body text =>
    intro g last hwf
    simp only [wfStm] at hwf
    obtain ⟨g', m, h, hext, hedge⟩ := analyzeFor_total body g last pat iter hwf
    refine ⟨g', m, ?_, hext, hedge⟩
    simp only [analyzeStmt]
    exact h
  | .sMatch scrut arms =>
    intro g last hwf
    simp only [wfStm] at hwf
    obtain ⟨g', m, h, hext, hedge⟩ := analyzeMatch_total arms g last scrut hwf
    refine ⟨g', m, ?_, hext, hedge⟩
    simp only [analyzeStmt]
    exact h
  | .sOpaque t =>
    intro g last _
    refine ⟨addEdge (addNode g (NodeType.BasicBlock t)).1 last
              (addNode g (NodeType.BasicBlock t)).2 "next",
            (addNode g (NodeType.BasicBlock t)).2, ?_, ?_, ?_⟩
    · simp only [analyzeStmt]
    · exact Ext_trans (Ext_addNode g (NodeType.BasicBlock t) rfl rfl) (Ext_addEdge _ _ _ _)
    · exact ⟨_, "next", addEdge_mem _ _ _ _⟩
termination_by (sizeOf s, 0)

theorem analyzeIf_total (e : IfE) : ∀ (g : FlowGraph) (parent : Nat), wfIf e = true →
    ∃ g' m, analyzeIf g parent e = some (g', m) ∧ Ext g g' ∧
      ∃ t lab, Edge.mk parent t lab ∈ g'.edges := by
  match e with
  | .mk cond thenB els =>
    intro g parent hwf
    simp only [wfIf, Bool.and_eq_true] at hwf
    simp only [analyzeIf]
    obtain ⟨g3, thenN, h3, hext3, -, -⟩ := analyzeBlock_total thenB _ _ hwf.1
    rw [h3]
    simp only [Option.bind_eq_bind, Option.some_bind]
    obtain ⟨g6, h6, hext6⟩ := analyzeElse_total els _ _ _ hwf.2
    rw [h6]
    refine ⟨_, _, rfl, ?_, ?_⟩
    · repeat (first
        | exact Ext_refl _
        | exact hext3
        | exact hext6
        | refine Ext_trans ?_ (Ext_addEdge _ _ _ _)
        | refine Ext_trans ?_ (Ext_addNode _ _ rfl rfl)
        | refine Ext_trans ?_ hext6
        | refine Ext_trans ?_ hext3)
    · refine ⟨(addNode g (NodeType.Condition cond)).2, "进入判断",
        Ext_edge_mem ?_ (addEdge_mem (addNode g (NodeType.Condition cond)).1 parent
          (addNode g (NodeType.Condition cond)).2 "进入判断")⟩
      repeat (first
        | exact Ext_refl _
        | exact hext3
        | exact hext6
        | refine Ext_trans ?_ (Ext_addEdge _ _ _ _)
        | refine Ext_trans ?_ (Ext_addNode _ _ rfl rfl)
        | refine Ext_trans ?_ hext6
        | refine Ext_trans ?_ hext3)
termination_by (sizeOf e, 1)

theorem analyzeElse_total (els : ElseBr) : ∀ (g : FlowGraph) (condN mergeN : Nat),
    wfElse els = true →
    ∃ g', analyzeElse g condN mergeN els = some g' ∧ Ext g g' := by
  match els with
  | .none =>
    intro g condN mergeN _
    refine ⟨addEdge g condN mergeN "否", ?_, Ext_addEdge g condN mergeN "否"⟩
    simp only [analyzeElse]
  | .blockE b =>
    intro g condN mergeN hwf
    simp only [wfElse] at hwf
    simp only [analyzeElse]
    obtain ⟨h, elseN, hb, hextb, -, -⟩ := analyzeBlock_total b _ _ hwf
    rw [hb]
    refine ⟨_, rfl, ?_⟩
    exact Ext_trans hextb (Ext_trans (Ext_addEdge _ _ _ _) (Ext_addEdge _ _ _ _))
  | .elseIfE e =>
    intro g condN mergeN hwf
    simp only [wfElse] at hwf
    simp only [analyzeElse]
    obtain ⟨h, elseN, he, hexte, -⟩ := analyzeIf_total e _ _ hwf
    rw [he]
    refine ⟨_, rfl, ?_⟩
    exact Ext_trans hexte (Ext_trans (Ext_addEdge _ _ _ _) (Ext_addEdge _ _ _ _))
  | .otherE t =>
    intro g condN mergeN hwf
    simp only [wfElse] at hwf
    exact Bool.noConfusion hwf
termination_by (sizeOf els, 1)

theorem analyzeWhile_total (body : Blk) : ∀ (g : FlowGraph) (parent : Nat) (cond : String),
    wfBlk body = true →
    ∃ g' x, analyzeWhile g parent cond body = some (g', x) ∧ Ext g g' ∧
      ∃ t lab, Edge.mk parent t lab ∈ g'.edges := by
  intro g parent cond hwf
  simp only [analyzeWhile]
  obtain ⟨g5, bodyN, h5, hext5, -, -⟩ := analyzeBlock_total body _ _ hwf
  rw [h5]
  refine ⟨_, _, rfl, ?_, ?_⟩
  · repeat (first
      | exact Ext_refl _
      | exact hext5
      | refine Ext_trans ?_ (Ext_addEdge _ _ _ _)
      | refine Ext_trans ?_ (Ext_addNode _ _ rfl rfl)
      | refine Ext_trans ?_ hext5)
  · refine ⟨(addNode g (NodeType.BasicBlock "循环入口")).2, "进入循环",
      Ext_edge_mem ?_ (addEdge_mem (addNode g (NodeType.BasicBlock "循环入口")).1 parent
        (addNode g (NodeType.BasicBlock "循环入口")).2 "进入循环")⟩
    repeat (first
      | exact Ext_refl _
      | exact hext5
      | refine Ext_trans ?_ (Ext_addEdge _ _ _ _)
      | refine Ext_trans ?_ (Ext_addNode _ _ rfl rfl)
      | refine Ext_trans ?_ hext5)
termination_by (sizeOf body, 1)

theorem analyzeLoop_total (body : Blk) : ∀ (g : FlowGraph) (parent : Nat),
    wfBlk body = true →
    ∃ g' x, analyzeLoop g parent body = some (g', x) ∧ Ext g g' ∧
      ∃ t lab, Edge.mk parent t lab ∈ g'.edges := by
  intro g parent hwf
  simp only [analyzeLoop]
  obtain ⟨g3, bodyN, h3, hext3, -, -⟩ := analyzeBlock_total body _ _ hwf
  rw [h3]
  refine ⟨_, _, rfl, ?_, ?_⟩
  · repeat (first
      | exact Ext_refl _
      | exact hext3
      | refine Ext_trans ?_ (Ext_addEdge _ _ _ _)
      | refine Ext_trans ?_ (Ext_addNode _ _ rfl rfl)
      | refine Ext_trans ?_ hext3)
  · refine ⟨(addNode g (NodeType.Loop "无条件循环")).2, "进入循环",
      Ext_edge_mem ?_ (addEdge_mem (addNode g (NodeType.Loop "无条件循环")).1 parent
        (addNode g (NodeType.Loop "无条件循环")).2 "进入循环")⟩
    repeat (first
      | exact Ext_refl _
      | exact hext3
      | refine Ext_trans ?_ (Ext_addEdge _ _ _ _)
      | refine Ext_trans ?_ (Ext_addNode _ _ rfl rfl)
      | refine Ext_trans ?_ hext3)
termination_by (sizeOf body, 1)

theorem analyzeFor_total (body : Blk) : ∀ (g : FlowGraph) (parent : Nat) (pat iter : String),
    wfBlk body = true →
    ∃ g' x, analyzeFor g parent pat iter body = some (g', x) ∧ Ext g g' ∧
      ∃ t lab, Edge.mk parent t lab ∈ g'.edges := by
  intro g parent pat iter hwf
  simp only [analyzeFor]
  obtain ⟨g3, bodyN, h3, hext3, -, -⟩ := analyzeBlock_total body _ _ hwf
  rw [h3]
  refine ⟨_, _, rfl, ?_, ?_⟩
  · repeat (first
      | exact Ext_refl _
      | exact hext3
      | refine Ext_trans ?_ (Ext_addEdge _ _ _ _)
      | refine Ext_trans ?_ (Ext_addNode _ _ rfl rfl)
      | refine Ext_trans ?_ hext3)
  · refine ⟨(addNode g (NodeType.Loop ("for " ++ pat ++ " in " ++ iter))).2, "进入循环",
      Ext_edge_mem ?_ (addEdge_mem (addNode g (NodeType.Loop ("for " ++ pat ++ " in " ++ iter))).1
        parent (addNode g (NodeType.Loop ("for " ++ pat ++ " in " ++ iter))).2 "进入循环")⟩
    repeat (first
      | exact Ext_refl _
      | exact hext3
      | refine Ext_trans ?_ (Ext_addEdge _ _ _ _)
      | refine Ext_trans ?_ (Ext_addNode _ _ rfl rfl)
      | refine Ext_trans ?_ hext3)
termination_by (sizeOf body, 1)

theorem analyzeMatch_total (arms : Arms) : ∀ (g : FlowGraph) (parent : Nat) (scrut : String),
    wfArms arms = true →
    ∃ g' m, analyzeMatch g parent scrut arms = some (g', m) ∧ Ext g g' ∧
      ∃ t lab, Edge.mk parent t lab ∈ g'.edges := by
  intro g parent scrut hwf
  simp only [analyzeMatch]
  obtain ⟨g4, h4, hext4⟩ := analyzeArms_total arms _ _ _ hwf
  rw [h4]
  refine ⟨_, _, rfl, ?_, ?_⟩
  · repeat (first
      | exact Ext_refl _
      | exact hext4
      | refine Ext_trans ?_ (Ext_addEdge _ _ _ _)
      | refine Ext_trans ?_ (Ext_addNode _ _ rfl rfl)
      | refine Ext_trans ?_ hext4)
  · refine ⟨(addNode g (NodeType.Condition ("match " ++ scrut))).2, "next",
      Ext_edge_mem ?_ (addEdge_mem (addNode g (NodeType.Condition ("match " ++ scrut))).1
        parent (addNode g (NodeType.Condition ("match " ++ scrut))).2 "next")⟩
    repeat (first
      | exact Ext_refl _
      | exact hext4
      | refine Ext_trans ?_ (Ext_addEdge _ _ _ _)
      | refine Ext_trans ?_ (Ext_addNode _ _ rfl rfl)
      | refine Ext_trans ?_ hext4)
termination_by (sizeOf arms, 2)

theorem analyzeArms_total (arms : Arms) : ∀ (g : FlowGraph) (matchN mergeN : Nat),
    wfArms arms = true →
    ∃ g', analyzeArms g matchN mergeN arms = some g' ∧ Ext g g' := by
  match arms with
  | .nil =>
    intro g matchN mergeN _
    refine ⟨g, ?_, Ext_refl g⟩
    simp only [analyzeArms]
  | .cons a rest =>
    intro g matchN mergeN hwf
    simp only [wfArms, Bool.and_eq_true] at hwf
    simp only [analyzeArms]
    obtain ⟨g1, h1, hext1⟩ := analyzeArm_total a _ _ _ hwf.1
    rw [h1]
    obtain ⟨g2, h2, hext2⟩ := analyzeArms_total rest g1 matchN mergeN hwf.2
    exact ⟨g2, h2, Ext_trans hext1 hext2⟩
termination_by (sizeOf arms, 1)

theorem analyzeArm_total (a : Arm) : ∀ (g : FlowGraph) (matchN mergeN : Nat),
    wfArm a = true →
    ∃ g', analyzeArm g matchN mergeN a = some g' ∧ Ext g g' := by
  match a with
  | .armBlock pat body =>
    intro g matchN mergeN hwf
    simp only [wfArm] at hwf
    simp only [analyzeArm]
    obtain ⟨g3, bodyN, h3, hext3, -, -⟩ := analyzeBlock_total body _ _ hwf
    rw [h3]
    refine ⟨_, rfl, ?_⟩
    repeat (first
      | exact Ext_refl _
      | exact hext3
      | refine Ext_trans ?_ (Ext_addEdge _ _ _ _)
      | refine Ext_trans ?_ (Ext_addNode _ _ rfl rfl)
      | refine Ext_trans ?_ hext3)
  | .armExpr pat text =>
    intro g matchN mergeN _
    refine ⟨addEdge
        (addEdge
          (addNode (addEdge (addNode g (NodeType.BasicBlock ("case: " ++ pat))).1 matchN
              (addNode g (NodeType.BasicBlock ("case: " ++ pat))).2 "case")
            (NodeType.BasicBlock text)).1
          (addNode g (NodeType.BasicBlock ("case: " ++ pat))).2
          (addNode (addEdge (addNode g (NodeType.BasicBlock ("case: " ++ pat))).1 matchN
              (addNode g (NodeType.BasicBlock ("case: " ++ pat))).2 "case")
            (NodeType.BasicBlock text)).2 "next")
        (addNode (addEdge (addNode g (NodeType.BasicBlock ("case: " ++ pat))).1 matchN
            (addNode g (NodeType.BasicBlock ("case: " ++ pat))).2 "case")
          (NodeType.BasicBlock text)).2 mergeN "next", ?_, ?_⟩
    · simp only [analyzeArm]
    · repeat (first
        | exact Ext_refl _
        | refine Ext_trans ?_ (Ext_addEdge _ _ _ _)
        | refine Ext_trans ?_ (Ext_addNode _ _ rfl rfl))
termination_by (sizeOf a, 1)
end

theorem mem_addEdge_of_mem {g : FlowGraph} {e : Edge} (s t : Nat) (l : String)
    (h : e ∈ g.edges) : e ∈ (addEdge g s t l).edges := by
  simp only [addEdge, List.mem_append]
  exact Or.inl h

/-- C6.  For every well-formed function body, the builder succeeds and
creates exactly one `Start` and one `End` node (at indices `|nodes|` and
`|nodes| + 1` of the incoming graph); afterwards the exit node's in-degree
and the entry node's out-degree are both at least 1. -/
theorem c6_function_entry_exit (g : FlowGraph) (name : String) (body : Blk)
    (hwf : wfBlk body = true) :
    ∃ g', analyzeFunction g name body = some g' ∧
      countStart g'.nodes = countStart g.nodes + 1 ∧
      countEnd g'.nodes = countEnd g.nodes + 1 ∧
      1 ≤ inDegree g' (g.nodes.length + 1) ∧
      1 ≤ outDegree g' g.nodes.length := by
  simp only [analyzeFunction]
  obtain ⟨g3, lastN, h3, hext3, hnil, hcons⟩ := analyzeBlock_total body _ _ hwf
  rw [h3]
  simp only [Option.bind_eq_bind, Option.some_bind]
  have hend : (addNode (addNode g (NodeType.Start name false)).1 (NodeType.End name false)).2
      = g.nodes.length + 1 := by
    simp [addNode]
  have hstart : (addNode g (NodeType.Start name false)).2 = g.nodes.length := rfl
  obtain ⟨⟨ns, hn, hs, he⟩, -⟩ := hext3
  have hg3n : g3.nodes
      = g.nodes ++ [NodeType.Start name false] ++ [NodeType.End name false] ++ ns := by
    rw [hn]
    simp [addNode]
  refine ⟨_, rfl, ?_, ?_, ?_, ?_⟩
  · show countStart g3.nodes = countStart g.nodes + 1
    rw [hg3n]
    unfold countStart at hs ⊢
    simp only [List.countP_append, List.countP_cons, List.countP_nil,
      Bool.false_eq_true, if_true, if_false]
    omega
  · show countEnd g3.nodes = countEnd g.nodes + 1
    rw [hg3n]
    unfold countEnd at he ⊢
    simp only [List.countP_append, List.countP_cons, List.countP_nil,
      Bool.false_eq_true, if_true, if_false]
    omega
  · have hmem0 := addEdge_mem g3 lastN
      ((addNode (addNode g (NodeType.Start name false)).1 (NodeType.End name false)).2) "return"
    unfold inDegree incomingEdges
    refine List.length_pos.mpr (List.ne_nil_of_mem (List.mem_filter.mpr ⟨hmem0, ?_⟩))
    simp [hend]
  · unfold outDegree outgoingEdges
    match body, hnil, hcons with
    | Blk.nil, hnil, _ =>
      obtain ⟨hg3, hlast⟩ := hnil rfl
      refine List.length_pos.mpr (List.ne_nil_of_mem (List.mem_filter.mpr
        ⟨addEdge_mem g3 lastN ((addNode (addNode g (NodeType.Start name false)).1
            (NodeType.End name false)).2) "return", ?_⟩))
      rw [hlast]
      simp [addNode]
    | Blk.cons s rest, _, hcons =>
      obtain ⟨t, lab, hmem⟩ := hcons (fun hh => Blk.noConfusion hh)
      refine List.length_pos.mpr (List.ne_nil_of_mem (List.mem_filter.mpr
        ⟨mem_addEdge_of_mem _ _ _ hmem, ?_⟩))
      simp [addNode]

/-- Witness for C6: a function with a single opaque statement, built on the
empty graph, gets exactly one `Start` and one `End` node, with positive exit
in-degree and entry out-degree. -/
theorem c6_function_entry_exit_witness :
    wfBlk (Blk.cons (Stm.sOpaque "x + 1") Blk.nil) = true ∧
    ∃ g', analyzeFunction { nodes := [], edges := [] } "f"
            (Blk.cons (Stm.sOpaque "x + 1") Blk.nil) = some g' ∧
      countStart g'.nodes = countStart ([] : List NodeType) + 1 ∧
      countEnd g'.nodes = countEnd ([] : List NodeType) + 1 ∧
      1 ≤ inDegree g' 1 ∧
      1 ≤ outDegree g' 0 :=
  ⟨rfl, c6_function_entry_exit { nodes := [], edges := [] } "f"
    (Blk.cons (Stm.sOpaque "x + 1") Blk.nil) rfl⟩

/-! ### C7: the while-loop example -/

def c7Pred : FlowGraph := { nodes := [NodeType.BasicBlock "pred"], edges := [] }

def c7Body : Blk := Blk.cons (Stm.sOpaque "print()") Blk.nil

/-- Counterexample to C7.  Building `while x>0 { print() }` from a
predecessor node does not yield the five claimed edges: the actual result has
a sixth edge, condition → body labelled "next" (added when the body is walked
from the condition node), parallel to the "true" edge.  The claimed
five-edge graph (with the source's literal labels: enter-loop = 进入循环,
check = 检查条件, true = 是, continue = 继续循环, false = 否) is therefore not
the builder's output. -/
theorem c7_counterexample :
    analyzeWhile c7Pred 0 "x > 0" c7Body
      ≠ some ({ nodes := [NodeType.BasicBlock "pred", NodeType.BasicBlock "循环入口",
                          NodeType.Condition "x > 0", NodeType.BasicBlock "print()",
                          NodeType.BasicBlock "循环结束"],
                edges := [⟨0, 1, "进入循环"⟩, ⟨1, 2, "检查条件"⟩, ⟨2, 3, "是"⟩,
                          ⟨3, 1, "继续循环"⟩, ⟨2, 4, "否"⟩] }, 4) := by
  have heval : analyzeWhile c7Pred 0 "x > 0" c7Body
      = some ({ nodes := [NodeType.BasicBlock "pred", NodeType.BasicBlock "循环入口",
                          NodeType.Condition "x > 0", NodeType.BasicBlock "print()",
                          NodeType.BasicBlock "循环结束"],
                edges := [⟨0, 1, "进入循环"⟩, ⟨1, 2, "检查条件"⟩, ⟨2, 3, "next"⟩, ⟨2, 3, "是"⟩,
                          ⟨3, 1, "继续循环"⟩, ⟨2, 4, "否"⟩] }, 4) := by
    simp [analyzeWhile, analyzeBlock, analyzeStmt, addNode, addEdge, c7Pred, c7Body]
  rw [heval]
  decide

/-- C7 (amended).  Building `while x>0 { print() }` from a predecessor node
yields four new nodes — loop-entry block, condition, body block, exit block —
and six edges: predecessor→loop_entry "进入循环" (enter-loop),
loop_entry→condition "检查条件" (check), condition→body "next" (the
sequential edge added when the body is walked from the condition node),
condition→body "是" (true), body→loop_entry "继续循环" (continue, the
back-edge) and condition→exit "否" (false); the exit node is returned as the
new predecessor. -/
theorem c7_while_shape :
    analyzeWhile c7Pred 0 "x > 0" c7Body
      = some ({ nodes := [NodeType.BasicBlock "pred", NodeType.BasicBlock "循环入口",
                          NodeType.Condition "x > 0", NodeType.BasicBlock "print()",
                          NodeType.BasicBlock "循环结束"],
                edges := [⟨0, 1, "进入循环"⟩, ⟨1, 2, "检查条件"⟩, ⟨2, 3, "next"⟩, ⟨2, 3, "是"⟩,
                          ⟨3, 1, "继续循环"⟩, ⟨2, 4, "否"⟩] }, 4) := by
  simp [analyzeWhile, analyzeBlock, analyzeStmt, addNode, addEdge, c7Pred, c7Body]

/-! ### C8: totality of the builder on well-formed trees -/

/-- C8.  A statement of unrecognized kind degrades to an opaque `BasicBlock`
holding its literal text, attached with a "next" edge — and on every
well-formed function body (in which an else branch is always a block or a
nested if, as the external parser guarantees) the builder never fails: the
`unreachable!` branch of `analyze_if` is never taken. -/
theorem c8_builder_total :
    (∀ (g : FlowGraph) (last : Nat) (t : String),
        analyzeStmt g last (Stm.sOpaque t)
          = some (addEdge (addNode g (NodeType.BasicBlock t)).1 last
              (addNode g (NodeType.BasicBlock t)).2 "next",
              (addNode g (NodeType.BasicBlock t)).2)) ∧
    (∀ (g : FlowGraph) (name : String) (body : Blk),
        wfBlk body = true → (analyzeFunction g name body).isSome) := by
  constructor
  · intro g last t
    simp only [analyzeStmt]
  · intro g name body hwf
    simp only [analyzeFunction]
    obtain ⟨g3, lastN, h3, -, -, -⟩ := analyzeBlock_total body _ _ hwf
    rw [h3]
    simp

/-- Witness for C8: a function whose body has an if with an else block (the
case guarded by the panic) and an opaque statement; the builder succeeds, and
the opaque statement's equation holds at a concrete input. -/
theorem c8_builder_total_witness :
    wfBlk (Blk.cons (Stm.sIf (IfE.mk "x > 0"
        (Blk.cons (Stm.sOpaque "a()") Blk.nil)
        (ElseBr.blockE (Blk.cons (Stm.sOpaque "b()") Blk.nil)))) Blk.nil) = true ∧
    (analyzeFunction { nodes := [], edges := [] } "f"
      (Blk.cons (Stm.sIf (IfE.mk "x > 0"
        (Blk.cons (Stm.sOpaque "a()") Blk.nil)
        (ElseBr.blockE (Blk.cons (Stm.sOpaque "b()") Blk.nil)))) Blk.nil)).isSome ∧
    analyzeStmt { nodes := [], edges := [] } 0 (Stm.sOpaque "x + 1")
      = some ({ nodes := [NodeType.BasicBlock "x + 1"], edges := [⟨0, 0, "next"⟩] }, 0) :=
  ⟨rfl,
   c8_builder_total.2 { nodes := [], edges := [] } "f" _ rfl,
   (c8_builder_total.1 { nodes := [], edges := [] } 0 "x + 1").trans (by decide)⟩

/-! ### Lemmas: the two builders agree on trees without for-loops -/

mutual
theorem visitBlock_eq (b : Blk) : ∀ (g : FlowGraph) (last : Nat), hasForBlk b = false →
    visitBlock g last b = analyzeBlock g last b := by
  match b with
  | .nil =>
    intro g last _
    simp only [visitBlock, analyzeBlock]
  | .cons s rest =>
    intro g last h
    simp only [hasForBlk, Bool.or_eq_false_iff] at h
    simp only [visitBlock, analyzeBlock]
    refine Option.bind_congr' (visitStmt_eq s g last h.1) fun p _ => ?_
    obtain ⟨g1, l1⟩ := p
    exact visitBlock_eq rest g1 l1 h.2
termination_by (sizeOf b, 0)

theorem visitStmt_eq (s : Stm) : ∀ (g : FlowGraph) (last : Nat), hasForStm s = false →
    visitStmt g last s = analyzeStmt g last s := by
  match s with
  | .sIf e =>
    intro g last h
    simp only [hasForStm] at h
    simp only [visitStmt, analyzeStmt]
    exact visitIf_eq e g last h
  | .sWhile c body =>
    intro g last h
    simp only [hasForStm] at h
    simp only [visitStmt, analyzeStmt]
    exact visitWhile_eq body g last c h
  | .sLoop body =>
    intro g last h
    simp only [hasForStm] at h
    simp only [visitStmt, analyzeStmt]
    exact visitLoop_eq body g last h
  | .sFor pat iter body text =>
    intro g last h
    simp only [hasForStm] at h
    exact Bool.noConfusion h
  | .sMatch scrut arms =>
    intro g last h
    simp only [hasForStm] at h
    simp only [visitStmt, analyzeStmt]
    exact visitMatch_eq arms g last scrut h
  | .sOpaque t =>
    intro g last _
    simp only [visitStmt, analyzeStmt]
termination_by (sizeOf s, 0)

theorem visitIf_eq (e : IfE) : ∀ (g : FlowGraph) (parent : Nat), hasForIf e = false →
    visitIf g parent e = analyzeIf g parent e := by
  match e with
  | .mk cond thenB els =>
    intro g parent h
    simp only [hasForIf, Bool.or_eq_false_iff] at h
    simp only [visitIf, analyzeIf]
    refine Option.bind_congr' (visitBlock_eq thenB _ _ h.1) fun p _ => ?_
    obtain ⟨g3, thenN⟩ := p
    refine Option.bind_congr' (visitElse_eq els _ _ _ h.2) fun g6 _ => rfl
termination_by (sizeOf e, 1)

theorem visitElse_eq (els : ElseBr) : ∀ (g : FlowGraph) (condN mergeN : Nat),
    hasForElse els = false →
    visitElse g condN mergeN els = analyzeElse g condN mergeN els := by
  match els with
  | .none =>
    intro g condN mergeN _
    simp only [visitElse, analyzeElse]
  | .blockE b =>
    intro g condN mergeN h
    simp only [hasForElse] at h
    simp only [visitElse, analyzeElse]
    refine Option.bind_congr' (visitBlock_eq b _ _ h) fun p _ => rfl
  | .elseIfE e =>
    intro g condN mergeN h
    simp only [hasForElse] at h
    simp only [visitElse, analyzeElse]
    refine Option.bind_congr' (visitIf_eq e _ _ h) fun p _ => rfl
  | .otherE t =>
    intro g condN mergeN _
    simp only [visitElse, analyzeElse]
termination_by (sizeOf els, 1)

theorem visitWhile_eq (body : Blk) : ∀ (g : FlowGraph) (parent : Nat) (cond : String),
    hasForBlk body = false →
    visitWhile g parent cond body = analyzeWhile g parent cond body := by
  intro g parent cond h
  simp only [visitWhile, analyzeWhile]
  refine Option.bind_congr' (visitBlock_eq body _ _ h) fun p _ => rfl
termination_by (sizeOf body, 1)

theorem visitLoop_eq (body : Blk) : ∀ (g : FlowGraph) (parent : Nat),
    hasForBlk body = false →
    visitLoop g parent body = analyzeLoop g parent body := by
  intro g parent h
  simp only [visitLoop, analyzeLoop]
  refine Option.bind_congr' (visitBlock_eq body _ _ h) fun p _ => rfl
termination_by (sizeOf body, 1)

theorem visitMatch_eq (arms : Arms) : ∀ (g : FlowGraph) (parent : Nat) (scrut : String),
    hasForArms arms = false →
    visitMatch g parent scrut arms = analyzeMatch g parent scrut arms := by
  intro g parent scrut h
  simp only [visitMatch, analyzeMatch]
  refine Option.bind_congr' (visitArms_eq arms _ _ _ h) fun g4 _ => rfl
termination_by (sizeOf arms, 2)

theorem visitArms_eq (arms : Arms) : ∀ (g : FlowGraph) (matchN mergeN : Nat),
    hasForArms arms = false →
    visitArms g matchN mergeN arms = analyzeArms g matchN mergeN arms := by
  match arms with
  | .nil =>
    intro g matchN mergeN _
    simp only [visitArms, analyzeArms]
  | .cons a rest =>
    intro g matchN mergeN h
    simp only [hasForArms, Bool.or_eq_false_iff] at h
    simp only [visitArms, analyzeArms]
    refine Option.bind_congr' (visitArm_eq a _ _ _ h.1) fun g1 _ => ?_
    exact visitArms_eq rest g1 matchN mergeN h.2
termination_by (sizeOf arms, 1)

theorem visitArm_eq (a : Arm) : ∀ (g : FlowGraph) (matchN mergeN : Nat),
    hasForArm a = false →
    visitArm g matchN mergeN a = analyzeArm g matchN mergeN a := by
  match a with
  | .armBlock pat body =>
    intro g matchN mergeN h
    simp only [hasForArm] at h
    simp only [visitArm, analyzeArm]
    refine Option.bind_congr' (visitBlock_eq body _ _ h) fun p _ => rfl
  | .armExpr pat text =>
    intro g matchN mergeN _
    simp only [visitArm, analyzeArm]
termination_by (sizeOf a, 1)
end

/-! ### C10: the two builder implementations -/

def c10Body : Blk :=
  Blk.cons (Stm.sFor "i" "0 .. 10" Blk.nil "for i in 0 .. 10 \x7b \x7d") Blk.nil

/-- Counterexample to C10.  On a function whose body is a single for-loop,
the visitor of `lib.rs` (which has no `ForLoop` arm and degrades the loop to
an opaque block) and the analyzer pass (which builds a loop header with a
back-edge and an exit node) produce structurally different graphs: three
nodes and two edges versus four nodes and four edges. -/
theorem c10_counterexample :
    visitItemFn { nodes := [], edges := [] } "f" c10Body
      = some { nodes := [NodeType.Start "f" false, NodeType.End "f" false,
                         NodeType.BasicBlock "for i in 0 .. 10 \x7b \x7d"],
               edges := [⟨0, 2, "next"⟩, ⟨2, 1, "return"⟩] } ∧
    analyzeFunction { nodes := [], edges := [] } "f" c10Body
      = some { nodes := [NodeType.Start "f" false, NodeType.End "f" false,
                         NodeType.Loop "for i in 0 .. 10", NodeType.BasicBlock "循环结束"],
               edges := [⟨0, 2, "进入循环"⟩, ⟨2, 2, "继续循环"⟩, ⟨2, 3, "退出循环"⟩,
                         ⟨3, 1, "return"⟩] } ∧
    visitItemFn { nodes := [], edges := [] } "f" c10Body
      ≠ analyzeFunction { nodes := [], edges := [] } "f" c10Body := by
  have h1 : visitItemFn { nodes := [], edges := [] } "f" c10Body
      = some { nodes := [NodeType.Start "f" false, NodeType.End "f" false,
                         NodeType.BasicBlock "for i in 0 .. 10 \x7b \x7d"],
               edges := [⟨0, 2, "next"⟩, ⟨2, 1, "return"⟩] } := by
    simp [visitItemFn, visitBlock, visitStmt, addNode, addEdge, c10Body]
  have h2 : analyzeFunction { nodes := [], edges := [] } "f" c10Body
      = some { nodes := [NodeType.Start "f" false, NodeType.End "f" false,
                         NodeType.Loop "for i in 0 .. 10", NodeType.BasicBlock "循环结束"],
               edges := [⟨0, 2, "进入循环"⟩, ⟨2, 2, "继续循环"⟩, ⟨2, 3, "退出循环"⟩,
                         ⟨3, 1, "return"⟩] } := by
    simp [analyzeFunction, analyzeBlock, analyzeStmt, analyzeFor, addNode, addEdge, c10Body]
  refine ⟨h1, h2, ?_⟩
  rw [h1, h2]
  decide

/-- C10 (amended).  For every input function whose statement tree contains
no for-loop (at any nesting depth), the `ControlFlowVisitor` of `lib.rs` and
the `ControlFlowAnalyzerPass` build identical graphs — same nodes with the
same texts and the same labelled edges, up to the node-variant renaming
(`lib.rs`'s `NodeType` lacks the test flag).  On functions containing a
for-loop the two differ: the visitor degrades the loop to an opaque block,
the pass builds a loop header, back-edge and exit node. -/
theorem c10_equiv_no_for (g : FlowGraph) (name : String) (body : Blk)
    (h : hasForBlk body = false) :
    visitItemFn g name body = analyzeFunction g name body := by
  simp only [visitItemFn, analyzeFunction]
  refine Option.bind_congr' (visitBlock_eq body _ _ h) fun p _ => rfl

/-- Witness for C10's amended theorem: a function with a while-loop and an
if (no for-loop) is built identically by both implementations. -/
theorem c10_equiv_no_for_witness :
    hasForBlk (Blk.cons (Stm.sWhile "x > 0"
        (Blk.cons (Stm.sIf (IfE.mk "y" (Blk.cons (Stm.sOpaque "a()") Blk.nil) ElseBr.none))
          Blk.nil)) Blk.nil) = false ∧
    visitItemFn { nodes := [], edges := [] } "f"
        (Blk.cons (Stm.sWhile "x > 0"
          (Blk.cons (Stm.sIf (IfE.mk "y" (Blk.cons (Stm.sOpaque "a()") Blk.nil) ElseBr.none))
            Blk.nil)) Blk.nil)
      = analyzeFunction { nodes := [], edges := [] } "f"
        (Blk.cons (Stm.sWhile "x > 0"
          (Blk.cons (Stm.sIf (IfE.mk "y" (Blk.cons (Stm.sOpaque "a()") Blk.nil) ElseBr.none))
            Blk.nil)) Blk.nil) :=
  ⟨rfl, c10_equiv_no_for { nodes := [], edges := [] } "f" _ rfl⟩

/-! ### C9: DOT label escaping (`DotRendererPass::process_label`, renderer.rs:175) -/

/-- Replacement of every occurrence of the character `c` by the string `r`
(Rust `str::replace` with a `char` pattern, as `process_label` uses it). -/
def replaceChar (s : String) (c : Char) (r : String) : String :=
  ⟨s.data.foldr (fun d acc => if d = c then r.data ++ acc else d :: acc) []⟩

/-- The escaping chain of `process_label` (renderer.rs:177), in the source's
order: backslash first, then double quote, the braces, the angle brackets,
the pipe, and newline. -/
def escapeLabel (label : String) : String :=
  replaceChar (replaceChar (replaceChar (replaceChar (replaceChar (replaceChar
    (replaceChar (replaceChar label '\\' "\\\\") '\"' "\\\"") '\x7b' "\\\x7b")
    '\x7d' "\\\x7d") '<' "\\<") '>' "\\>") '|' "\\|") '\n' "\\n"

/-- Rust `str::split_whitespace`: the maximal runs of non-whitespace
characters, in order, with no empty items.  Rust splits on Unicode white
space while `Char.isWhitespace` covers only ASCII white space, so the model
agrees with the source only on labels without exotic whitespace; the
statements proved below never depend on this branch beyond the all-ASCII
counterexample, on which the two notions coincide. -/
def splitWsAux : List Char → List Char → List String
  | [], cur => if cur.isEmpty then [] else [⟨cur.reverse⟩]
  | c :: cs, cur =>
    if c.isWhitespace then
      if cur.isEmpty then splitWsAux cs [] else ⟨cur.reverse⟩ :: splitWsAux cs []
    else splitWsAux cs (c :: cur)

def splitWhitespace (s : String) : List String :=
  splitWsAux s.data []

/-- One iteration of the word-wrap loop of `process_label` (renderer.rs:193):
the accumulator is the result string and the running line length.  Rust
`str::len` counts bytes, hence `utf8ByteSize`. -/
def wrapStep (acc : String × Nat) (w : String) : String × Nat :=
  if 20 < acc.2 + w.utf8ByteSize then (acc.1 ++ "\\n" ++ w, w.utf8ByteSize)
  else if acc.1 ≠ "" then (acc.1 ++ " " ++ w, acc.2 + 1 + w.utf8ByteSize)
  else (acc.1 ++ w, acc.2 + w.utf8ByteSize)

/-- `DotRendererPass::process_label` (renderer.rs:175): escape the label;
if the escaped text is longer than 20 bytes, additionally re-join its
whitespace-split words, inserting a literal `\n` whenever the running line
would exceed 20 bytes. -/
def processLabel (label : String) : String :=
  if 20 < (escapeLabel label).utf8ByteSize then
    ((splitWhitespace (escapeLabel label)).foldl wrapStep ("", 0)).1
  else escapeLabel label

/-- Counterexample to C9.  A label of 21 identical characters needs no
escaping, yet `process_label` does not return it unchanged: the escaped text
exceeds 20 bytes, so the word-wrap loop runs and prepends a literal `\n`.
The emitted label therefore differs from the input transformed by the eight
replacements alone. -/
theorem c9_counterexample :
    processLabel "aaaaaaaaaaaaaaaaaaaaa" = "\\naaaaaaaaaaaaaaaaaaaaa" ∧
    escapeLabel "aaaaaaaaaaaaaaaaaaaaa" = "aaaaaaaaaaaaaaaaaaaaa" ∧
    processLabel "aaaaaaaaaaaaaaaaaaaaa" ≠ escapeLabel "aaaaaaaaaaaaaaaaaaaaa" := by
  refine ⟨by decide, by decide, by decide⟩

/-- C9 (amended).  For every label whose escaped form is at most 20 bytes
long, the label text emitted in the DOT output equals the input transformed
by exactly, and in exactly this order, the replacements backslash → `\\`,
`"` → `\"`, `{` → `\{`, `}` → `\}`, `<` → `\<`, `>` → `\>`, `|` → `\|`,
newline → `\n`, with no other modification.  A label whose escaped form
exceeds 20 bytes is instead fed through the word-wrap loop and need not
equal the pure escape (the counterexample above shows such a label being
changed). -/
theorem c9_escape_short_labels (label : String)
    (h : (escapeLabel label).utf8ByteSize ≤ 20) :
    processLabel label = escapeLabel label := by
  unfold processLabel
  rw [if_neg (by omega)]

/-- Witness for C9's amended theorem: a label containing every escaped
character (escaped form 16 bytes) passes through unwrapped, with all eight
replacements applied in order. -/
theorem c9_escape_short_labels_witness :
    (escapeLabel "\\\"\x7b\x7d<>|\n").utf8ByteSize ≤ 20 ∧
    processLabel "\\\"\x7b\x7d<>|\n" = "\\\\\\\"\\\x7b\\\x7d\\<\\>\\|\\n" ∧
    escapeLabel "\\\"\x7b\x7d<>|\n" = "\\\\\\\"\\\x7b\\\x7d\\<\\>\\|\\n" :=
  ⟨by decide, (c9_escape_short_labels "\\\"\x7b\x7d<>|\n" (by decide)).trans (by decide),
   by decide⟩

end CargoGraph
